import Mathlib

set_option linter.unusedVariables false
set_option linter.unreachableTactic false
set_option linter.unusedTactic false

/-!
Verification of the reference segmentation and structured-field extraction
engine of the academic-reference-extractor repository.

The Python sources (src/pdf_parser.py, src/pdf_extractor.py,
src/reference_parser.py) are shallowly embedded below.  Strings are
modelled as `List Char`; Python's `re` module calls are compiled, regex by
regex, into deterministic scanners.  Each definition carries a comment
naming the Python function/regex it embeds.  Python's regular expressions
are matched with leftmost-start, preference-order (greedy/lazy) semantics;
wherever a quantifier interacts with its continuation the compilation is
justified in a comment (typically the character classes involved are
disjoint, so greedy matching is deterministic).

Case-insensitive matching (re.IGNORECASE) is modelled on the ASCII range,
matching the Latin-alphabet scope of the tool.
-/

/-! ## Python character classes and string primitives -/

/-- Python `\s` on the ASCII range: the whitespace characters recognised by
`str.strip()` and `re`'s `\s` for ASCII text. -/
def isSpacePy (c : Char) : Bool :=
  c = ' ' || c = '\t' || c = '\n' || c = '\r' || c = '\x0b' || c = '\x0c'

/-- Python `\d` (ASCII). -/
def isDigitPy (c : Char) : Bool := '0' ≤ c && c ≤ '9'

/-- Regex class `[A-Z]`. -/
def isUpperPy (c : Char) : Bool := 'A' ≤ c && c ≤ 'Z'

/-- Regex class `[a-z]`. -/
def isLowerPy (c : Char) : Bool := 'a' ≤ c && c ≤ 'z'

/-- Regex class `[A-Za-z]`. -/
def isAlphaPy (c : Char) : Bool := isUpperPy c || isLowerPy c

/-- Regex class `\w` (ASCII): letters, digits, underscore. -/
def isWordPy (c : Char) : Bool := isAlphaPy c || isDigitPy c || c = '_'

/-- ASCII lower-casing, as used to model `str.lower()` and `re.IGNORECASE`. -/
def toLowerPy (c : Char) : Char :=
  if isUpperPy c then Char.ofNat (c.toNat + 32) else c

/-- Python `str.strip()`: drop leading and trailing whitespace. -/
def pyStrip (l : List Char) : List Char :=
  ((l.dropWhile isSpacePy).reverse.dropWhile isSpacePy).reverse

/-- Python `str.strip(chars)`: drop leading and trailing characters from `s`. -/
def stripSet (s : List Char) (l : List Char) : List Char :=
  ((l.dropWhile (s.contains ·)).reverse.dropWhile (s.contains ·)).reverse

/-- Python `str.rstrip(chars)`. -/
def rstripSet (s : List Char) (l : List Char) : List Char :=
  (l.reverse.dropWhile (s.contains ·)).reverse

/-- Python `str.split(sep)` for a single-character separator (keeps empty pieces). -/
def splitChar (sep : Char) : List Char → List (List Char)
  | [] => [[]]
  | c :: rest =>
    if c = sep then [] :: splitChar sep rest
    else
      match splitChar sep rest with
      | [] => [[c]]
      | h :: t => (c :: h) :: t

/-- Python `' '.join(pieces)`. -/
def joinSpace : List (List Char) → List Char
  | [] => []
  | [p] => p
  | p :: ps => p ++ ' ' :: joinSpace ps

/-- Does `l` start with the sequence `pat`? -/
def startsWithL : List Char → List Char → Bool
  | _, [] => true
  | [], _ :: _ => false
  | c :: cs, d :: ds => c = d && startsWithL cs ds

/-- Does `l` contain `pat` as a contiguous subsequence (Python `pat in l`)? -/
def containsSub : List Char → List Char → Bool
  | [], pat => startsWithL [] pat
  | c :: rest, pat => startsWithL (c :: rest) pat || containsSub rest pat

/-- Python `str.find(pat)`: index of the first occurrence, `-1` if absent. -/
def pyFindAux (pat : List Char) : List Char → Nat → Int
  | [], i => if startsWithL [] pat then (i : Int) else -1
  | c :: rest, i =>
    if startsWithL (c :: rest) pat then (i : Int) else pyFindAux pat rest (i + 1)

/-- Python `str.find(pat)`. -/
def pyFind (l pat : List Char) : Int := pyFindAux pat l 0

/-- Python `str.split()` with no argument: split on whitespace runs, dropping
empty pieces.  Used only to count words (`len(s.split())`). -/
def pySplitWsAux : Nat → List Char → List (List Char)
  | 0, _ => []
  | _, [] => []
  | fuel + 1, l =>
    let l1 := l.dropWhile isSpacePy
    match l1 with
    | [] => []
    | _ :: _ =>
      let w := l1.takeWhile (fun c => !isSpacePy c)
      w :: pySplitWsAux fuel (l1.dropWhile (fun c => !isSpacePy c))

/-- Python `str.split()` (whitespace, no empties). -/
def pySplitWs (l : List Char) : List (List Char) := pySplitWsAux l.length l

/-- Python's `$` anchor (no MULTILINE): matches at the end of the string or
just before a trailing newline. -/
def dollarEnd (l : List Char) : Bool := l.isEmpty || l = ['\n']

/-- `\s+`: require at least one whitespace character, consume the maximal run
(the continuations in all uses below start with non-whitespace, so greedy
matching is deterministic). -/
def wsPlus (l : List Char) : Option (List Char) :=
  if (l.takeWhile isSpacePy).isEmpty then none else some (l.dropWhile isSpacePy)

/-- Generic leftmost search: try the position matcher `m` at every suffix,
left to right, returning the 0-based start index and the payload. -/
def findMatch {α : Type} (m : List Char → Option α) : List Char → Option (Nat × α)
  | [] => (m []).map (fun a => (0, a))
  | c :: rest =>
    match m (c :: rest) with
    | some a => some (0, a)
    | none => (findMatch m rest).map (fun p => (p.1 + 1, p.2))

/-- Leftmost search returning only the start index of a boolean position test. -/
def findIdx (test : List Char → Bool) : List Char → Option Nat
  | [] => if test [] then some 0 else none
  | c :: rest =>
    if test (c :: rest) then some 0 else (findIdx test rest).map (· + 1)

/-- Generic `re.sub`: scan left to right; at each position, if the matcher
fires it yields the replacement text and the suffix after the match (every
matcher used consumes at least one character); otherwise copy one character.
The fuel starts at the input length, which suffices since every step
consumes at least one input character. -/
def subAllAux (m : List Char → Option (List Char × List Char)) :
    Nat → List Char → List Char
  | _, [] => []
  | 0, l => l
  | fuel + 1, c :: rest =>
    match m (c :: rest) with
    | some (repl, suffix) => repl ++ subAllAux m fuel suffix
    | none => c :: subAllAux m fuel rest

/-- `re.sub` driver. -/
def subAll (m : List Char → Option (List Char × List Char)) (l : List Char) :
    List Char :=
  subAllAux m l.length l

/-- Matcher for `\s+` used by `re.sub(r'\s+', ' ', s)`. -/
def wsRunAt (l : List Char) : Option (List Char × List Char) :=
  match l with
  | c :: _ => if isSpacePy c then some ([' '], l.dropWhile isSpacePy) else none
  | [] => none

/-- `re.sub(r'\s+', ' ', s)`. -/
def collapseWs (l : List Char) : List Char := subAll wsRunAt l

/-- Numeric value of a digit string (Python `int(s)` for digit-only `s`). -/
def digitsToNat (l : List Char) : Nat :=
  l.foldl (fun a c => a * 10 + (c.toNat - '0'.toNat)) 0

/-! ## pdf_parser.py: year extraction (lines 139-170)

The four stages of `_parse_single_reference`'s year cascade. -/

/-- `re.search(r"[''](\d{2,4})", key)` (line 141; the character class holds
two straight apostrophes).  Scan for the first apostrophe followed by at
least two digits; the greedy `\d{2,4}` captures up to four digits. -/
def yearKeySearch : List Char → Option (List Char)
  | [] => none
  | c :: rest =>
    if c = '\'' then
      let ds := (rest.takeWhile isDigitPy).take 4
      if 2 ≤ ds.length then some ds else yearKeySearch rest
    else yearKeySearch rest

/-- Lines 142-151: the two-digit pivot.  Two-digit captures map through the
fixed pivot 50 (`> 50 → 19xx`, else `20xx`); longer captures are kept. -/
def yearFromKey (key : List Char) : List Char :=
  match yearKeySearch key with
  | none => []
  | some ds =>
    if ds.length = 2 then
      if 50 < digitsToNat ds then '1' :: '9' :: ds else '2' :: '0' :: ds
    else ds

/-- Position matcher for `\((\d{4})(?:[,\)])` (line 156): an opening
parenthesis, exactly four digits, then a comma or closing parenthesis. -/
def yearParenAt (l : List Char) : Option (List Char) :=
  match l with
  | '(' :: a :: b :: c :: d :: e :: _ =>
    if isDigitPy a && isDigitPy b && isDigitPy c && isDigitPy d &&
       (e = ',' || e = ')') then some [a, b, c, d] else none
  | _ => none

/-- `re.search(r'\((\d{4})(?:[,\)])', text)` group 1. -/
def yearParenSearch (l : List Char) : Option (List Char) :=
  (findMatch yearParenAt l).map (·.2)

/-- Position matcher for `,\s*(\d{4})\.?\s*$` (line 162).  `\s*` before the
digits is deterministic (whitespace and digits are disjoint); `\.?` is taken
when present (a period is not whitespace, so skipping it cannot help);
`\s*$` holds exactly when the remainder is all whitespace (Python's `$` also
matching before a trailing newline is subsumed, `\n` being whitespace). -/
def yearEndAt (l : List Char) : Option (List Char) :=
  match l with
  | ',' :: rest =>
    let m := rest.dropWhile isSpacePy
    match m with
    | a :: b :: c :: d :: rest2 =>
      if isDigitPy a && isDigitPy b && isDigitPy c && isDigitPy d then
        let tail := match rest2 with
                    | '.' :: r3 => r3
                    | _ => rest2
        if tail.all isSpacePy then some [a, b, c, d] else none
      else none
    | _ => none
  | _ => none

/-- `re.search(r',\s*(\d{4})\.?\s*$', text)` group 1. -/
def yearEndSearch (l : List Char) : Option (List Char) :=
  (findMatch yearEndAt l).map (·.2)

/-- Position matcher for `\([A-Za-z]+\s+\d+,\s*(\d{4})\)` (line 168).  Each
greedy quantifier is followed by a character class disjoint from its own, so
matching is deterministic; `\d{4}` must be followed directly by `)`. -/
def yearDateAt (l : List Char) : Option (List Char) :=
  match l with
  | '(' :: r =>
    if (r.takeWhile isAlphaPy).isEmpty then none else
    let r1 := r.dropWhile isAlphaPy
    if (r1.takeWhile isSpacePy).isEmpty then none else
    let r2 := r1.dropWhile isSpacePy
    if (r2.takeWhile isDigitPy).isEmpty then none else
    match r2.dropWhile isDigitPy with
    | ',' :: r3 =>
      let r4 := r3.dropWhile isSpacePy
      match r4 with
      | a :: b :: c :: d :: ')' :: _ =>
        if isDigitPy a && isDigitPy b && isDigitPy c && isDigitPy d then
          some [a, b, c, d]
        else none
      | _ => none
    | _ => none
  | _ => none

/-- `re.search(r'\([A-Za-z]+\s+\d+,\s*(\d{4})\)', text)` group 1. -/
def yearDateSearch (l : List Char) : Option (List Char) :=
  (findMatch yearDateAt l).map (·.2)

/-- Lines 139-170 of `_parse_single_reference`: `ref.year` starts as the
empty string; each `if not ref.year:` guard runs the next pattern only when
every earlier stage produced nothing. -/
def extractYearCode (key text : List Char) : List Char :=
  let y1 := yearFromKey key
  let y2 := if y1.isEmpty then
              match yearParenSearch text with
              | some ds => ds
              | none => y1
            else y1
  let y3 := if y2.isEmpty then
              match yearEndSearch text with
              | some ds => ds
              | none => y2
            else y2
  if y3.isEmpty then
    match yearDateSearch text with
    | some ds => ds
    | none => y3
  else y3

/-- Spec-side formulation of the year cascade (spec §4.4): an ordered list of
four stages where the first stage to produce a result wins and later stages
are never consulted.  Stage 1 includes the two-digit pivot mapping. -/
def yearCascadeSpec (key text : List Char) : Option (List Char) :=
  (match yearKeySearch key with
   | some ds =>
     some (if ds.length = 2 then
             if 50 < digitsToNat ds then '1' :: '9' :: ds else '2' :: '0' :: ds
           else ds)
   | none => none) <|>
  yearParenSearch text <|>
  yearEndSearch text <|>
  yearDateSearch text

/-! ## pdf_parser.py: author extraction (lines 184-389) -/

/-- Shared scanner body for the two translation regexes
`[Tt]ranslated\s+by\s+([^(]+)\s*\((\d{4})\)` (line 195) and
`[Tt]ranslated\s+by\s+[^(]+\((\d{4})\)` (line 396): after the leading
`[Tt]` the two patterns compile identically, because the greedy `[^(]+`
always stops exactly at the next `(` and the `\s*` of line 195 therefore
always matches the empty string.  Returns the `[^(]+` capture. -/
def transBodyAt (l : List Char) : Option (List Char) :=
  if startsWithL l ("ranslated".data) then
    let r1 := l.drop 9
    match wsPlus r1 with
    | some r2 =>
      if startsWithL r2 ("by".data) then
        match wsPlus (r2.drop 2) with
        | some r4 =>
          let grp := r4.takeWhile (· ≠ '(')
          if grp.isEmpty then none else
          match r4.dropWhile (· ≠ '(') with
          | '(' :: a :: b :: c :: d :: ')' :: _ =>
            if isDigitPy a && isDigitPy b && isDigitPy c && isDigitPy d then
              some grp
            else none
          | _ => none
        | none => none
      else none
    | none => none
  else none

/-- Position matcher for the translation regexes: `[Tt]` then the body. -/
def transAt (l : List Char) : Option (List Char) :=
  match l with
  | c :: rest => if c = 'T' || c = 't' then transBodyAt rest else none
  | [] => none

/-- `re.search` for the translation pattern; payload is group 1. -/
def transSearch (l : List Char) : Option (List Char) :=
  (findMatch transAt l).map (·.2)

/-- Analogous body for `[Ee]dited\s+by\s+([^(]+)\s*\((\d{4})\)` (line 201). -/
def editBodyAt (l : List Char) : Option (List Char) :=
  if startsWithL l ("dited".data) then
    let r1 := l.drop 5
    match wsPlus r1 with
    | some r2 =>
      if startsWithL r2 ("by".data) then
        match wsPlus (r2.drop 2) with
        | some r4 =>
          let grp := r4.takeWhile (· ≠ '(')
          if grp.isEmpty then none else
          match r4.dropWhile (· ≠ '(') with
          | '(' :: a :: b :: c :: d :: ')' :: _ =>
            if isDigitPy a && isDigitPy b && isDigitPy c && isDigitPy d then
              some grp
            else none
          | _ => none
        | none => none
      else none
    | none => none
  else none

/-- Position matcher for the editor pattern: `[Ee]` then the body. -/
def editAt (l : List Char) : Option (List Char) :=
  match l with
  | c :: rest => if c = 'E' || c = 'e' then editBodyAt rest else none
  | [] => none

/-- `re.search` for the editor pattern; payload is group 1. -/
def editSearch (l : List Char) : Option (List Char) :=
  (findMatch editAt l).map (·.2)

/-- Position matcher for `\((\d{4})\)` (line 207): used for its start index. -/
def parenYear4At (l : List Char) : Bool :=
  match l with
  | '(' :: a :: b :: c :: d :: ')' :: _ =>
    isDigitPy a && isDigitPy b && isDigitPy c && isDigitPy d
  | _ => false

/-- Four digits at the head of the list. -/
def fourDigitsAt : List Char → Bool
  | a :: b :: c :: d :: _ => isDigitPy a && isDigitPy b && isDigitPy c && isDigitPy d
  | _ => false

/-- `re.search(r'^([^(]+?)(\d{4})', text)` (line 210): anchored at the start;
the lazy `[^(]+?` grows one character at a time (never past a `(`), stopping
at the first point where four digits follow.  Returns group 1. -/
def caretYearAux : List Char → List Char → Option (List Char)
  | accRev, [] => none
  | accRev, c :: rest =>
    if c = '(' then none
    else if fourDigitsAt rest then some (c :: accRev).reverse
    else caretYearAux (c :: accRev) rest

/-- Driver for the anchored lazy-group year pattern. -/
def caretYear (l : List Char) : Option (List Char) := caretYearAux [] l

/-- `re.sub(r'\.\.\.\s*&', ',', s)` matcher (lines 239-240; the second
pattern `\.{3}\s*&` is the same regex).  Greedy `\s*` is deterministic
(whitespace and `&` are disjoint). -/
def ellipsisAmpAt (l : List Char) : Option (List Char × List Char) :=
  match l with
  | '.' :: '.' :: '.' :: r =>
    match r.dropWhile isSpacePy with
    | '&' :: r2 => some ([','], r2)
    | _ => none
  | _ => none

/-- `str.replace(';', '|||')` (line 244). -/
def replaceSemis : List Char → List Char
  | [] => []
  | c :: rest =>
    if c = ';' then '|' :: '|' :: '|' :: replaceSemis rest
    else c :: replaceSemis rest

/-- `re.sub(r'\s+&\s+', '|||', s)` matcher (line 247). -/
def ampSepAt (l : List Char) : Option (List Char × List Char) :=
  match wsPlus l with
  | some ('&' :: r) =>
    match wsPlus r with
    | some r2 => some (['|', '|', '|'], r2)
    | none => none
  | _ => none

/-- `re.sub(r'\s+and\s+', '|||', s, flags=re.IGNORECASE)` matcher (line 248). -/
def andSepAt (l : List Char) : Option (List Char × List Char) :=
  match wsPlus l with
  | some (a :: n :: d :: r) =>
    if (a = 'a' || a = 'A') && (n = 'n' || n = 'N') && (d = 'd' || d = 'D') then
      match wsPlus r with
      | some r2 => some (['|', '|', '|'], r2)
      | none => none
    else none
  | _ => none

/-- Python `str.split('|||')`: non-overlapping left-to-right splitting on the
three-character separator. -/
def splitSeqAux (sep : List Char) : Nat → List Char → List Char → List (List Char)
  | 0, accRev, l => [accRev.reverse ++ l]
  | _, accRev, [] => [accRev.reverse]
  | fuel + 1, accRev, c :: rest =>
    if startsWithL (c :: rest) sep then
      accRev.reverse :: splitSeqAux sep fuel [] ((c :: rest).drop sep.length)
    else splitSeqAux sep fuel (c :: accRev) rest

/-- Python `str.split(sep)` for a non-empty separator string. -/
def splitSeq (sep l : List Char) : List (List Char) := splitSeqAux sep l.length [] l

/-- `re.match(r'^(?:[A-Z]\.?)+$', s)` core (line 302): one or more units of
an upper-case letter with an optional period.  `\.?` is deterministic: after
skipping a present period the next unit would have to start at that period
and fail. -/
def initialsCore : Nat → List Char → Bool
  | 0, _ => false
  | fuel + 1, l =>
    match l with
    | [] => false
    | c :: rest =>
      isUpperPy c &&
      (match rest with
       | [] => true
       | '.' :: r2 => r2.isEmpty || initialsCore fuel r2
       | _ => initialsCore fuel rest)

/-- `is_initials` (line 302): the pattern is applied to
`next_part.replace(' ', '')`. -/
def is_initials (next : List Char) : Bool :=
  let s := next.filter (· ≠ ' ')
  initialsCore (s.length + 1) s

/-- `is_short_first` (lines 303-304). -/
def is_short_first (next : List Char) : Bool :=
  decide (0 < next.length) && decide (next.length ≤ 3) &&
  (match next with | c :: _ => isUpperPy c | [] => false) &&
  !(match next.getLast? with | some '.' => true | _ => false)

/-- `re.match(r'^[A-Z][a-z]*\.?$', next)` with `len(next) <= 10`
(lines 305-306). -/
def is_first_name_initial (next : List Char) : Bool :=
  (match next with
   | c :: rest =>
     isUpperPy c &&
     (let r2 := rest.dropWhile isLowerPy
      dollarEnd r2 || (match r2 with | '.' :: r3 => dollarEnd r3 | _ => false))
   | [] => false) && decide (next.length ≤ 10)

/-- Consume `[A-Z][a-z]+` (case-sensitive), returning the remainder. -/
def capWord (l : List Char) : Option (List Char) :=
  match l with
  | c :: rest =>
    if isUpperPy c && !(rest.takeWhile isLowerPy).isEmpty then
      some (rest.dropWhile isLowerPy)
    else none
  | [] => none

/-- `looks_like_last_name` (lines 309-312): the four anchored shapes
`^[A-Z][a-z]+$`, `^[A-Z][a-z]+ [A-Z][a-z]+$`, `^[A-Z]'[A-Z][a-z]+$`,
`^[A-Z][a-z]+-[A-Z][a-z]+$`. -/
def looks_like_last_name (part : List Char) : Bool :=
  (match capWord part with
   | some r =>
     dollarEnd r ||
     (match r with
      | ' ' :: r2 =>
        (match capWord r2 with | some r3 => dollarEnd r3 | none => false)
      | '-' :: r2 =>
        (match capWord r2 with | some r3 => dollarEnd r3 | none => false)
      | _ => false)
   | none => false) ||
  (match part with
   | c1 :: '\'' :: c2 :: rest =>
     isUpperPy c1 && isUpperPy c2 && !(rest.takeWhile isLowerPy).isEmpty &&
     dollarEnd (rest.dropWhile isLowerPy)
   | _ => false)

/-- `re.match(r'^[A-Z][a-z]+\s+[A-Z][a-z]+', part)` (line 323): a prefix
match, not anchored at the end. -/
def matchFirstLast (part : List Char) : Bool :=
  match capWord part with
  | some r =>
    match wsPlus r with
    | some r2 => (capWord r2).isSome
    | none => false
  | none => false

/-- `re.match(r'^[A-Z][a-z]+$', part)` (line 330). -/
def matchSingleCap (part : List Char) : Bool :=
  match capWord part with
  | some r => dollarEnd r
  | none => false

/-- Tail of `re.match(r'^[A-Z]\.?(\s*[A-Z]\.?)*$', s)` (line 335): zero or
more units `\s*[A-Z]\.?` then the end anchor.  Each optional period is taken
when present (skipping it would leave the period where a space, an upper
letter, or the end is required). -/
def initialsSeqTail : Nat → List Char → Bool
  | _, [] => true
  | 0, _ => false
  | fuel + 1, l =>
    if dollarEnd l then true
    else
      match l.dropWhile isSpacePy with
      | c :: r =>
        isUpperPy c &&
        (match r with
         | '.' :: r2 => initialsSeqTail fuel r2
         | _ => initialsSeqTail fuel r)
      | [] => false

/-- `re.match(r'^[A-Z]\.?(\s*[A-Z]\.?)*$', s)` (line 335). -/
def matchInitialsSeq (s : List Char) : Bool :=
  match s with
  | c :: rest =>
    isUpperPy c &&
    (match rest with
     | '.' :: r2 => initialsSeqTail r2.length r2
     | _ => initialsSeqTail rest.length rest)
  | [] => false

/-- `re.search(r'[A-Za-z]{2,}', part)` (line 345): two consecutive letters
somewhere. -/
def hasAlpha2 : List Char → Bool
  | a :: b :: rest => (isAlphaPy a && isAlphaPy b) || hasAlpha2 (b :: rest)
  | _ => false

/-- Both preference alternatives of `\.?`, greedy first. -/
def dotAlts : List Char → List (List Char)
  | '.' :: r => [r, '.' :: r]
  | l => [l]

/-- Both preference alternatives of `[A-Z]?`, greedy first. -/
def upperAlts : List Char → List (List Char)
  | c :: r => if isUpperPy c then [r, c :: r] else [c :: r]
  | [] => [[]]

/-- Anchored remainder check for group 2 of the `LastName Initials` pattern
`[A-Z]\.?\s*[A-Z]?\.?\s*[A-Z]?\.?` followed by `$` (line 380): a bounded
backtracking search over the optional parts. -/
def innerInitialsOk (rem : List Char) : Bool :=
  match rem with
  | c :: r1 =>
    isUpperPy c &&
    (dotAlts r1).any (fun r2 =>
      let r3 := r2.dropWhile isSpacePy
      (upperAlts r3).any (fun r4 =>
        (dotAlts r4).any (fun r5 =>
          let r6 := r5.dropWhile isSpacePy
          (upperAlts r6).any (fun r7 =>
            (dotAlts r7).any dollarEnd))))
  | [] => false

/-- `re.match(r'^([A-Z][a-z]+)\s+([A-Z]\.?\s*[A-Z]?\.?\s*[A-Z]?\.?)$', name)`
(line 380): group 1 is the capitalised word, group 2 the anchored remainder
after the whitespace run. -/
def lastInitialsMatch (name : List Char) : Option (List Char × List Char) :=
  match name with
  | c :: rest =>
    if isUpperPy c && !(rest.takeWhile isLowerPy).isEmpty then
      let lows := rest.takeWhile isLowerPy
      let r1 := rest.dropWhile isLowerPy
      match wsPlus r1 with
      | some rem =>
        if innerInitialsOk rem then some (c :: lows, rem) else none
      | none => none
    else none
  | [] => none

/-- `_normalize_author_name` (lines 351-389). -/
def normalize_author_name (name0 : List Char) : List Char :=
  if name0.isEmpty then [] else
  let name1 := pyStrip name0
  let name2 := stripSet ['.', ',', ';', ':'] name1
  let name3 := collapseWs name2
  let name4 :=
    if name3.contains ',' then
      -- name.split(',', 1); last = parts[0].strip(); first = parts[1].strip()
      let last := pyStrip (name3.takeWhile (· ≠ ','))
      let first := pyStrip ((name3.dropWhile (· ≠ ',')).drop 1)
      if !first.isEmpty && !last.isEmpty then
        if (match first with | c :: _ => isUpperPy c | [] => false) then
          first ++ ' ' :: last
        else last
      else last
    else
      match lastInitialsMatch name3 with
      | some (last, grp2) => pyStrip grp2 ++ ' ' :: last
      | none => name3
  stripSet ['.', ',', ';', ':', ' '] name4

/-- The while-loop of `_extract_authors_from_comma_separated`
(lines 283-347).  The fuel starts at the number of parts; each step
consumes one or two parts. -/
def commaLoop : Nat → List (List Char) → List (List Char)
  | 0, _ => []
  | _, [] => []
  | fuel + 1, part0 :: rest =>
    let part := pyStrip part0
    if part.isEmpty then commaLoop fuel rest
    else
      let combined : Option (List Char × List (List Char)) :=
        match rest with
        | next0 :: rest2 =>
          let next := pyStrip next0
          if looks_like_last_name part &&
             (is_initials next || is_short_first next ||
              is_first_name_initial next) then
            some (part ++ ',' :: ' ' :: next, rest2)
          else none
        | [] => none
      match combined with
      | some (full, rest2) => full :: commaLoop fuel rest2
      | none =>
        if matchFirstLast part then part :: commaLoop fuel rest
        else if matchSingleCap part && decide (2 < part.length) then
          match rest with
          | [] => part :: commaLoop fuel rest
          | next0 :: _ =>
            if !matchInitialsSeq (pyStrip next0) then part :: commaLoop fuel rest
            else commaLoop fuel rest
        else if hasAlpha2 part then part :: commaLoop fuel rest
        else commaLoop fuel rest

/-- `_extract_authors_from_comma_separated` (lines 274-349). -/
def extract_authors_from_comma_separated (text : List Char) : List (List Char) :=
  let parts := (splitChar ',' text).map pyStrip
  commaLoop parts.length parts

/-- The character class of `re.match(r'^[\d\s.,]+$', author)` (line 269). -/
def digitPunctClass (c : Char) : Bool :=
  isDigitPy c || isSpacePy c || c = '.' || c = ','

/-- `_parse_author_list` (lines 231-272). -/
def parse_author_list (authorsText : List Char) : List (List Char) :=
  if authorsText.isEmpty then [] else
  let t1 := subAll ellipsisAmpAt authorsText
  let t2 := subAll ellipsisAmpAt t1
  let t3 := replaceSemis t2
  let t4 := subAll ampSepAt t3
  let t5 := subAll andSepAt t4
  let major := splitSeq ['|', '|', '|'] t5
  let authors := major.foldr
    (fun part acc =>
      let p := pyStrip part
      if p.isEmpty then acc else extract_authors_from_comma_separated p ++ acc)
    []
  authors.filterMap (fun a =>
    let n := normalize_author_name a
    if !n.isEmpty && decide (1 < n.length) && !(n.all digitPunctClass) then
      some n
    else none)

/-- `_extract_authors_smart` (lines 184-229). -/
def extract_authors_smart (text key : List Char) : List (List Char) :=
  match transSearch text with
  | some g => [normalize_author_name (pyStrip g)]
  | none =>
  match editSearch text with
  | some g => parse_author_list (pyStrip g)
  | none =>
    let authorsText :=
      match findIdx parenYear4At text with
      | some i => pyStrip (text.take i)
      | none =>
        match caretYear text with
        | some g => g
        | none =>
          let fp := pyFind text ['.']
          if 0 < fp then text.take fp.toNat else text.take 50
    let authorsText2 := rstripSet ['.'] (rstripSet [','] (pyStrip authorsText))
    parse_author_list authorsText2

/-! ## pdf_parser.py: title extraction (lines 391-693) -/

/-- Case-insensitive (ASCII) literal test: does `l` start with the
lower-case word `w`? -/
def icStarts : List Char → List Char → Bool
  | _, [] => true
  | [], _ :: _ => false
  | c :: cs, d :: ds => toLowerPy c = d && icStarts cs ds

/-- Case-insensitive literal consumer: remainder after the lower-case word
`w`, when `l` starts with it. -/
def icLit (w : List Char) (l : List Char) : Option (List Char) :=
  if icStarts l w then some (l.drop w.length) else none

/-- Alternatives of an optional case-insensitive `word\s+` group (such as
`(?:In\s+)?` or `(?:The\s+)?`), with-group first (greedy preference). -/
def optWordWs (w : List Char) (l : List Char) : List (List Char) :=
  match icLit w l with
  | some r =>
    match wsPlus r with
    | some r2 => [r2, l]
    | none => [l]
  | none => [l]

/-- `word1\s+word2` (case-insensitive), as a prefix test. -/
def litWsLit (w1 w2 : List Char) (l : List Char) : Bool :=
  match icLit w1 l with
  | some r =>
    match wsPlus r with
    | some r2 => icStarts r2 w2
    | none => false
  | none => false

/-- `word\s+` (case-insensitive) as a prefix test (e.g. `British\s+`). -/
def litWs (w : List Char) (l : List Char) : Bool :=
  match icLit w l with
  | some r => (wsPlus r).isSome
  | none => false

/-- `word\s+\d` (case-insensitive) as a prefix test (e.g. `Volume\s+\d`). -/
def litWsDigit (w : List Char) (l : List Char) : Bool :=
  match icLit w l with
  | some r =>
    match wsPlus r with
    | some (c :: _) => isDigitPy c
    | _ => false
  | none => false

/-- `word\b` (case-insensitive): the word followed by a non-word character
or the end (e.g. `Nature\b`). -/
def litBoundary (w : List Char) (l : List Char) : Bool :=
  match icLit w l with
  | some [] => true
  | some (c :: _) => !isWordPy c
  | none => false

/-- Comma-journal patterns `,\s*W1\s+W2` / `,\s*W1\s+` of lines 432-440
(IGNORECASE).  An empty `w2` stands for the patterns ending in `\s+`. -/
def commaPatAt (w1 w2 : List Char) (l : List Char) : Bool :=
  match l with
  | ',' :: r =>
    let r1 := r.dropWhile isSpacePy
    icStarts r1 w1 &&
    (let r2 := r1.drop w1.length
     !(r2.takeWhile isSpacePy).isEmpty &&
     (w2.isEmpty || icStarts (r2.dropWhile isSpacePy) w2))
  | _ => false

/-- The comma-journal loop of lines 441-445: each pattern is searched over
the whole text in list order; the first pattern with any hit wins and the
title is everything before its match start. -/
def commaJournalStart (text : List Char) : Option Nat :=
  (findIdx (commaPatAt ("journal".data) ("of".data)) text) <|>
  (findIdx (commaPatAt ("annals".data) ("of".data)) text) <|>
  (findIdx (commaPatAt ("transactions".data) ("on".data)) text) <|>
  (findIdx (commaPatAt ("proceedings".data) ("of".data)) text) <|>
  (findIdx (commaPatAt ("ieee".data) []) text) <|>
  (findIdx (commaPatAt ("acm".data) []) text) <|>
  (findIdx (commaPatAt ("journal".data) ("für".data)) text)

/-- `re.split(r'\.\s+', text)` (line 450): split at every period followed by
at least one whitespace character, consuming the whitespace run. -/
def dotWsSplitAux : Nat → List Char → List Char → List (List Char)
  | 0, accRev, l => [accRev.reverse ++ l]
  | _, accRev, [] => [accRev.reverse]
  | fuel + 1, accRev, '.' :: r =>
    if !(r.takeWhile isSpacePy).isEmpty then
      accRev.reverse :: dotWsSplitAux fuel [] (r.dropWhile isSpacePy)
    else dotWsSplitAux fuel ('.' :: accRev) r
  | fuel + 1, accRev, c :: r => dotWsSplitAux fuel (c :: accRev) r

/-- `re.split(r'\.\s+', text)`. -/
def dotWsSplit (l : List Char) : List (List Char) := dotWsSplitAux l.length [] l

/-- `[A-Z][a-z]+` under IGNORECASE: any letter then one or more letters. -/
def icWord2 (l : List Char) : Option (List Char) :=
  match l with
  | c :: rest =>
    if isAlphaPy c && !(rest.takeWhile isAlphaPy).isEmpty then
      some (rest.dropWhile isAlphaPy)
    else none
  | [] => none

/-- First journal pattern of line 459 (anchored, IGNORECASE):
`^(?:Annals|Journal|Proceedings|IEEE|ACM|SIAM|The\s+[A-Z]|[A-Z][a-z]+\s+Journal)`. -/
def jpOne (l : List Char) : Bool :=
  icStarts l ("annals".data) || icStarts l ("journal".data) ||
  icStarts l ("proceedings".data) || icStarts l ("ieee".data) ||
  icStarts l ("acm".data) || icStarts l ("siam".data) ||
  (match icLit ("the".data) l with
   | some r =>
     match wsPlus r with
     | some (c :: _) => isAlphaPy c
     | _ => false
   | none => false) ||
  (match icWord2 l with
   | some r =>
     match wsPlus r with
     | some r2 => icStarts r2 ("journal".data)
     | none => false
   | none => false)

/-- Second journal pattern of line 460 (anchored, IGNORECASE):
`^(?:Transactions|Communications|Reviews?|Bulletin|Archives?)` — for a
prefix test the optional `s?` adds nothing. -/
def jpTwo (l : List Char) : Bool :=
  icStarts l ("transactions".data) || icStarts l ("communications".data) ||
  icStarts l ("review".data) || icStarts l ("bulletin".data) ||
  icStarts l ("archive".data)

/-- Third journal pattern of line 461: `^\d+\s*[\(:]`. -/
def jpThree (l : List Char) : Bool :=
  !(l.takeWhile isDigitPy).isEmpty &&
  (match (l.dropWhile isDigitPy).dropWhile isSpacePy with
   | '(' :: _ => true
   | ':' :: _ => true
   | _ => false)

/-- `(?:\d{4}\s+)?IEEE` tail of the IEEE venue marker (line 477). -/
def ieeeTail (l : List Char) : Bool :=
  icStarts l ("ieee".data) ||
  (match l with
   | a :: b :: c :: d :: r =>
     isDigitPy a && isDigitPy b && isDigitPy c && isDigitPy d &&
     (match wsPlus r with
      | some r2 => icStarts r2 ("ieee".data)
      | none => false)
   | _ => false)

/-- `WWW\s+\d` (line 490). -/
def wwwTail (l : List Char) : Bool :=
  match icLit ("www".data) l with
  | some r =>
    match wsPlus r with
    | some (c :: _) => isDigitPy c
    | _ => false
  | none => false

/-- `(?:\w+\s+)+` followed by a terminal test: one or more `\w+\s+` units
with the terminal checked after each unit (existence search, which is what
a boolean position test needs). -/
def unitsThen (term : List Char → Bool) : Nat → List Char → Bool
  | 0, _ => false
  | fuel + 1, l =>
    if (l.takeWhile isWordPy).isEmpty then false
    else
      match wsPlus (l.dropWhile isWordPy) with
      | some r => term r || unitsThen term fuel r
      | none => false

/-- `(?:In\s+)?(?:The\s+)?(?:\w+\s+)+Symposium` (line 493). -/
def symposiumBranch (l : List Char) : Bool :=
  (optWordWs ("the".data) l).any (fun r =>
    unitsThen (fun r2 => icStarts r2 ("symposium".data)) r.length r)

/-- `(?:for|on)\s+` terminal of line 494. -/
def forOnWs (r : List Char) : Bool :=
  (match icLit ("for".data) r with
   | some r2 => (wsPlus r2).isSome
   | none => false) ||
  (match icLit ("on".data) r with
   | some r2 => (wsPlus r2).isSome
   | none => false)

/-- `(?:In\s+)?The\s+(?:\w+\s+)+(?:for|on)\s+` (line 494), after the
optional `In`. -/
def theForOnBranch (l : List Char) : Bool :=
  match icLit ("the".data) l with
  | some r =>
    match wsPlus r with
    | some r2 => unitsThen forOnWs r2.length r2
    | none => false
  | none => false

/-- `In\s+[A-Z][a-z]+\s+(?:and|&)\s+` (line 495). -/
def inAndBranch (l : List Char) : Bool :=
  match icLit ("in".data) l with
  | some r =>
    match wsPlus r with
    | some r2 =>
      match icWord2 r2 with
      | some r3 =>
        match wsPlus r3 with
        | some r4 =>
          (match icLit ("and".data) r4 with
           | some r5 => (wsPlus r5).isSome
           | none => false) ||
          (match r4 with
           | '&' :: r5 => (wsPlus r5).isSome
           | _ => false)
        | none => false
      | none => false
    | none => false
  | none => false

/-- `In\s+[A-Z][a-z]+\s+[A-Z][a-z]+(?:\s|:)` (line 496). -/
def inTwoWordsBranch (l : List Char) : Bool :=
  match icLit ("in".data) l with
  | some r =>
    match wsPlus r with
    | some r2 =>
      match icWord2 r2 with
      | some r3 =>
        match wsPlus r3 with
        | some r4 =>
          match icWord2 r4 with
          | some (c :: _) => isSpacePy c || c = ':'
          | _ => false
        | none => false
      | none => false
    | none => false
  | none => false

/-- `In\s+[A-Z][a-z]+\s+Algebra` (line 497). -/
def inAlgebraBranch (l : List Char) : Bool :=
  match icLit ("in".data) l with
  | some r =>
    match wsPlus r with
    | some r2 =>
      match icWord2 r2 with
      | some r3 =>
        match wsPlus r3 with
        | some r4 => icStarts r4 ("algebra".data)
        | none => false
      | none => false
    | none => false
  | none => false

/-- `\"\s*In\s+` (line 498). -/
def quoteInBranch (l : List Char) : Bool :=
  match l with
  | '"' :: r =>
    let r1 := r.dropWhile isSpacePy
    match icLit ("in".data) r1 with
    | some r2 => (wsPlus r2).isSome
    | none => false
  | _ => false

/-- Word with an optional plural `s`, then `\s+of` (`Reviews?\s+of` etc.). -/
def optSLit (base w2 : List Char) (l : List Char) : Bool :=
  match icLit base l with
  | some r =>
    let alts := match r with
                | c :: r2 => if toLowerPy c = 's' then [r2, r] else [r]
                | [] => [r]
    alts.any (fun rr =>
      match wsPlus rr with
      | some r3 => icStarts r3 w2
      | none => false)
  | none => false

/-- `The\s+[A-Z][a-z]+\s+Journal` (line 515). -/
def theXJournalBranch (l : List Char) : Bool :=
  match icLit ("the".data) l with
  | some r =>
    match wsPlus r with
    | some r2 =>
      match icWord2 r2 with
      | some r3 =>
        match wsPlus r3 with
        | some r4 => icStarts r4 ("journal".data)
        | none => false
      | none => false
    | none => false
  | none => false

/-- `[A-Z][a-z]+\s+Journal` (line 516). -/
def xJournalBranch (l : List Char) : Bool :=
  match icWord2 l with
  | some r =>
    match wsPlus r with
    | some r2 => icStarts r2 ("journal".data)
    | none => false
  | none => false

/-- The literal `O'Reilly`, lower-cased. -/
def oReillyChars : List Char := ['o', '\'', 'r', 'e', 'i', 'l', 'l', 'y']

/-- `Addison.Wesley` (line 536): `.` matches any character except `\n`. -/
def addisonBranch (l : List Char) : Bool :=
  match icLit ("addison".data) l with
  | some (c :: r2) => c ≠ '\n' && icStarts r2 ("wesley".data)
  | _ => false

/-- `Cambridge,?\s+MA` alternative of line 544. -/
def cambridgeMABranch (l : List Char) : Bool :=
  match icLit ("cambridge".data) l with
  | some r =>
    let r1 := match r with
              | ',' :: r2 => r2
              | _ => r
    match wsPlus r1 with
    | some r2 => icStarts r2 ("ma".data)
    | none => false
  | none => false

/-- Location alternation of line 544. -/
def locationsBranch (l : List Char) : Bool :=
  litWsLit ("new".data) ("york".data) l || icStarts l ("boston".data) ||
  icStarts l ("london".data) || icStarts l ("berlin".data) ||
  litWsLit ("san".data) ("francisco".data) l || cambridgeMABranch l ||
  icStarts l ("redmond".data) || icStarts l ("cheshire".data)

/-- Drop one optional leading period (`\.?`, deterministic in all uses). -/
def dropDotOpt : List Char → List Char
  | '.' :: r => r
  | l => l

/-- `Ph\.?D\.?\s+[Tt]hesis` (line 546). -/
def phdBranch (l : List Char) : Bool :=
  match icLit ("ph".data) l with
  | some r =>
    match icLit ("d".data) (dropDotOpt r) with
    | some r2 =>
      match wsPlus (dropDotOpt r2) with
      | some r3 => icStarts r3 ("thesis".data)
      | none => false
    | none => false
  | none => false

/-- `Master\'?s?\s+[Tt]hesis` (line 547). -/
def mastersBranch (l : List Char) : Bool :=
  match icLit ("master".data) l with
  | some r =>
    let r1 := match r with
              | '\'' :: r2 => r2
              | _ => r
    let r2 := match r1 with
              | c :: r3 => if toLowerPy c = 's' then r3 else r1
              | [] => r1
    match wsPlus r2 with
    | some r3 => icStarts r3 ("thesis".data)
    | none => false
  | none => false

/-- `Paper\s+[A-Z]?\-?\d` (line 550). -/
def paperBranch (l : List Char) : Bool :=
  match icLit ("paper".data) l with
  | some r =>
    match wsPlus r with
    | some r1 =>
      let r2 := match r1 with
                | c :: r3 => if isAlphaPy c then r3 else r1
                | [] => r1
      let r3 := match r2 with
                | '-' :: r4 => r4
                | _ => r2
      match r3 with
      | c :: _ => isDigitPy c
      | [] => false
    | none => false
  | none => false

/-- `pp\.\s*\d` (line 552). -/
def ppBranch (l : List Char) : Bool :=
  match icLit ("pp".data) l with
  | some ('.' :: r) =>
    match r.dropWhile isSpacePy with
    | c :: _ => isDigitPy c
    | [] => false
  | _ => false

/-- `\d+\s*\(\d+\)` (line 553). -/
def volIssueBranch (l : List Char) : Bool :=
  !(l.takeWhile isDigitPy).isEmpty &&
  (match (l.dropWhile isDigitPy).dropWhile isSpacePy with
   | '(' :: r =>
     !(r.takeWhile isDigitPy).isEmpty &&
     (match r.dropWhile isDigitPy with
      | ')' :: _ => true
      | _ => false)
   | _ => false)

/-- `Vol\.\s*\d` (line 554). -/
def volDotBranch (l : List Char) : Bool :=
  match icLit ("vol".data) l with
  | some ('.' :: r) =>
    match r.dropWhile isSpacePy with
    | c :: _ => isDigitPy c
    | [] => false
  | _ => false

/-- `Series\s+[A-Z]` (line 558). -/
def seriesBranch (l : List Char) : Bool :=
  match icLit ("series".data) l with
  | some r =>
    match wsPlus r with
    | some (c :: _) => isAlphaPy c
    | _ => false
  | none => false

/-- `Part\s+[A-Z\d]` (line 559). -/
def partBranch (l : List Char) : Bool :=
  match icLit ("part".data) l with
  | some r =>
    match wsPlus r with
    | some (c :: _) => isAlphaPy c || isDigitPy c
    | _ => false
  | none => false

/-- `\d+:\s*\d+` (line 560). -/
def colonPagesBranch (l : List Char) : Bool :=
  !(l.takeWhile isDigitPy).isEmpty &&
  (match l.dropWhile isDigitPy with
   | ':' :: r =>
     match r.dropWhile isSpacePy with
     | c :: _ => isDigitPy c
     | [] => false
   | _ => false)

/-- The big alternation of `venue_markers` (lines 470-561), applied after
`\.\s*` under IGNORECASE.  `inOptAny p` handles the `(?:In\s+)?` prefixes. -/
def inOptAny (p : List Char → Bool) (l : List Char) : Bool :=
  (optWordWs ("in".data) l).any p

/-- One venue-marker alternative matches at this position (order is
irrelevant for a boolean existence test). -/
def venueAltAt (l : List Char) : Bool :=
  inOptAny (icStarts · ("proceedings".data)) l ||
  inOptAny (icStarts · ("conference".data)) l ||
  inOptAny (icStarts · ("workshop".data)) l ||
  inOptAny (litWsLit ("advances".data) ("in".data)) l ||
  inOptAny (icStarts · ("international".data)) l ||
  inOptAny ieeeTail l ||
  inOptAny (icStarts · ("acm".data)) l ||
  inOptAny (icStarts · ("siam".data)) l ||
  inOptAny (icStarts · ("nips".data)) l ||
  inOptAny (icStarts · ("neurips".data)) l ||
  inOptAny (icStarts · ("icml".data)) l ||
  inOptAny (icStarts · ("iclr".data)) l ||
  inOptAny (icStarts · ("cvpr".data)) l ||
  inOptAny (icStarts · ("iccv".data)) l ||
  inOptAny (icStarts · ("eccv".data)) l ||
  inOptAny (icStarts · ("aaai".data)) l ||
  inOptAny (icStarts · ("ijcai".data)) l ||
  inOptAny (icStarts · ("kdd".data)) l ||
  inOptAny wwwTail l ||
  inOptAny (icStarts · ("sigmod".data)) l ||
  inOptAny (icStarts · ("vldb".data)) l ||
  inOptAny symposiumBranch l ||
  inOptAny theForOnBranch l ||
  inAndBranch l ||
  inTwoWordsBranch l ||
  inAlgebraBranch l ||
  quoteInBranch l ||
  icStarts l ("arxiv".data) ||
  litBoundary ("nature".data) l ||
  litBoundary ("science".data) l ||
  icStarts l ("pnas".data) ||
  icStarts l ("plos".data) ||
  icStarts l ("jmlr".data) ||
  litWsLit ("journal".data) ("of".data) l ||
  litWsLit ("annals".data) ("of".data) l ||
  litWsLit ("transactions".data) ("on".data) l ||
  litWsLit ("communications".data) ("of".data) l ||
  litWsLit ("proceedings".data) ("of".data) l ||
  optSLit ("review".data) ("of".data) l ||
  litWsLit ("bulletin".data) ("of".data) l ||
  optSLit ("archive".data) ("of".data) l ||
  optSLit ("report".data) ("of".data) l ||
  theXJournalBranch l ||
  xJournalBranch l ||
  litWs ("british".data) l ||
  litWs ("american".data) l ||
  litWs ("european".data) l ||
  litWsLit ("international".data) ("journal".data) l ||
  icStarts l ("biometrika".data) ||
  icStarts l ("psycholog".data) ||
  icStarts l ("statistical".data) ||
  icStarts l ("springer".data) ||
  icStarts l ("cambridge".data) ||
  icStarts l ("oxford".data) ||
  litWsLit ("mit".data) ("press".data) l ||
  icStarts l oReillyChars ||
  icStarts l ("wiley".data) ||
  icStarts l ("elsevier".data) ||
  icStarts l ("mcgraw".data) ||
  icStarts l ("prentice".data) ||
  litWsLit ("academic".data) ("press".data) l ||
  litWsLit ("morgan".data) ("kaufmann".data) l ||
  addisonBranch l ||
  litWsLit ("crc".data) ("press".data) l ||
  icStarts l ("pearson".data) ||
  icStarts l ("hachette".data) ||
  icStarts l ("manning".data) ||
  icStarts l ("packt".data) ||
  litWsLit ("graphics".data) ("press".data) l ||
  locationsBranch l ||
  phdBranch l ||
  mastersBranch l ||
  litWsLit ("technical".data) ("report".data) l ||
  litWsLit ("working".data) ("paper".data) l ||
  paperBranch l ||
  litWsDigit ("chapter".data) l ||
  ppBranch l ||
  volIssueBranch l ||
  volDotBranch l ||
  litWsDigit ("volume".data) l ||
  litWsLit ("edited".data) ("by".data) l ||
  icStarts l ("editor".data) ||
  seriesBranch l ||
  partBranch l ||
  colonPagesBranch l

/-- Position test for `venue_pattern = r'\.\s*(?:' + '|'.join(venue_markers)
+ ')'` (line 564): a period, optional whitespace, then any alternative
(none of which starts with a whitespace character, so greedy `\s*` is
deterministic). -/
def venueMarkerAt (l : List Char) : Bool :=
  match l with
  | '.' :: r => venueAltAt (r.dropWhile isSpacePy)
  | _ => false

/-- Tail test `\.\s+[A-Z]` after the section group (line 574). -/
def sectionTailOk : List Char → Bool
  | '.' :: r =>
    (match wsPlus r with
     | some (c :: _) => isUpperPy c
     | _ => false)
  | _ => false

/-- Collect the candidates of the greedy `(?:\s+[a-z]+)*` star: the group
text and remainder after 0, 1, 2, … units, in increasing order. -/
def sectionCollect : Nat → List Char → List Char → List (List Char × List Char)
  | 0, g, l => [(g, l)]
  | fuel + 1, g, l =>
    (g, l) ::
    (match wsPlus l with
     | some r1 =>
       let lw := r1.takeWhile isLowerPy
       if lw.isEmpty then []
       else sectionCollect fuel (g ++ l.takeWhile isSpacePy ++ lw)
              (r1.dropWhile isLowerPy)
     | none => [])

/-- Position matcher for the section pattern (line 574, case-sensitive):
`\.\s+([A-Z][a-z]+(?:\s+[a-z]+)*)\.\s+[A-Z]`; payload is group 1 (the
greedy star takes the longest unit sequence whose tail matches). -/
def sectionAt (l : List Char) : Option (List Char) :=
  match l with
  | '.' :: r =>
    match wsPlus r with
    | some (c :: rest) =>
      if isUpperPy c && !(rest.takeWhile isLowerPy).isEmpty then
        let w0 := c :: rest.takeWhile isLowerPy
        let r2 := rest.dropWhile isLowerPy
        ((sectionCollect r2.length w0 r2).reverse.find?
          (fun p => sectionTailOk p.2)).map (·.1)
      else none
    | _ => none
  | _ => none

/-- Position test for the location pattern (line 586, case-sensitive):
`\.\s*(?:[A-Z][a-z]+,\s*[A-Z]{2}|[A-Z][a-z]+:\s*[A-Z])`. -/
def locationAt (l : List Char) : Bool :=
  match l with
  | '.' :: r =>
    (match (r.dropWhile isSpacePy) with
     | c :: rest =>
       isUpperPy c && !(rest.takeWhile isLowerPy).isEmpty &&
       (match rest.dropWhile isLowerPy with
        | ',' :: r2 =>
          (match r2.dropWhile isSpacePy with
           | a :: b :: _ => isUpperPy a && isUpperPy b
           | _ => false)
        | ':' :: r2 =>
          (match r2.dropWhile isSpacePy with
           | a :: _ => isUpperPy a
           | _ => false)
        | _ => false)
     | [] => false)
  | _ => false

/-- Position test for `(?<!\d)\.\s+\d+\s*[\(:]` (line 594); the caller
supplies whether the preceding character is a digit (the lookbehind). -/
def volAt (prevIsDigit : Bool) (l : List Char) : Bool :=
  match l with
  | '.' :: r =>
    !prevIsDigit &&
    (match wsPlus r with
     | some r1 =>
       !(r1.takeWhile isDigitPy).isEmpty &&
       (match (r1.dropWhile isDigitPy).dropWhile isSpacePy with
        | '(' :: _ => true
        | ':' :: _ => true
        | _ => false)
     | none => false)
  | _ => false

/-- Leftmost search for the volume pattern, threading the previous
character through for the lookbehind. -/
def volFind : Bool → Nat → List Char → Option Nat
  | _, _, [] => none
  | prev, i, c :: rest =>
    if volAt prev (c :: rest) then some i
    else volFind (isDigitPy c) (i + 1) rest

/-- Position test for the sentence-end pattern (line 602):
`(?<![A-Z])(?<!\s[A-Z])(?<!vs)(?<!etc)(?<!al)(?<!No)\.\s+[A-Z]`.  The
caller supplies the (up to) three characters preceding the position for the
lookbehinds. -/
def sentEndAt (p3 p2 p1 : Option Char) (l : List Char) : Bool :=
  match l with
  | '.' :: r =>
    (match p1 with
     | some c => !isUpperPy c
     | none => true) &&
    !(match p2, p1 with
      | some a, some b => isSpacePy a && isUpperPy b
      | _, _ => false) &&
    !(p2 = some 'v' && p1 = some 's') &&
    !(p3 = some 'e' && p2 = some 't' && p1 = some 'c') &&
    !(p2 = some 'a' && p1 = some 'l') &&
    !(p2 = some 'N' && p1 = some 'o') &&
    (match wsPlus r with
     | some (c :: _) => isUpperPy c
     | _ => false)
  | _ => false

/-- Leftmost search for the sentence-end pattern, threading the three
preceding characters. -/
def sentEndFind : Option Char → Option Char → Option Char → Nat → List Char →
    Option Nat
  | _, _, _, _, [] => none
  | p3, p2, p1, i, c :: rest =>
    if sentEndAt p3 p2 p1 (c :: rest) then some i
    else sentEndFind p2 p1 (some c) (i + 1) rest

/-- Steps (e)-(h) of `_extract_title_from_text` (lines 584-623): location
pattern, volume pattern, sentence-end pattern (whose two branches both
return the text before the match), then the first-period fallback.  Note
`text.find('.')` must be strictly positive, else the whole stripped text is
returned. -/
def afterSectionTitle (text : List Char) : List Char :=
  match findIdx locationAt text with
  | some i => pyStrip (text.take i)
  | none =>
  match volFind false 0 text with
  | some i => pyStrip (text.take i)
  | none =>
  match sentEndFind none none none 0 text with
  | some i => pyStrip (text.take i)
  | none =>
    let pp := pyFind text ['.']
    if 0 < pp then pyStrip (text.take pp.toNat) else pyStrip text

/-- `_extract_title_from_text` (lines 427-623). -/
def extract_title_from_text (text : List Char) : List Char :=
  match commaJournalStart text with
  | some i => pyStrip (text.take i)
  | none =>
  let parts := dotWsSplit text
  let threeHit : Option (List Char) :=
    if 3 ≤ parts.length then
      let second := parts.getD 1 []
      let third := parts.getD 2 []
      if !second.isEmpty && decide ((pySplitWs second).length ≤ 4) &&
         (jpOne third || jpTwo third || jpThree third) then
        some (pyStrip (parts.getD 0 []))
      else none
    else none
  match threeHit with
  | some t => t
  | none =>
  match findIdx venueMarkerAt text with
  | some i => pyStrip (text.take i)
  | none =>
  match findMatch sectionAt text with
  | some (i, grp) =>
    if decide ((pySplitWs grp).length ≤ 4) then pyStrip (text.take i)
    else afterSectionTitle text
  | none => afterSectionTitle text

/-- Position matcher for the fallback author-list end pattern (line 629,
case-sensitive): `and\s+[A-Z][a-z]+,\s+[A-Z][a-z]+(?:\s+[A-Z]\.?)?\.\s+`;
payload is the suffix after the match. -/
def fullNameEndAt (l : List Char) : Option (List Char) :=
  if startsWithL l ("and".data) then
    match wsPlus (l.drop 3) with
    | some r1 =>
      match capWord r1 with
      | some (',' :: r3) =>
        match wsPlus r3 with
        | some r4 =>
          match capWord r4 with
          | some r5 =>
            let tryTail : List Char → Option (List Char) := fun s =>
              match s with
              | '.' :: s2 => wsPlus s2
              | _ => none
            let withGrp : Option (List Char) :=
              match wsPlus r5 with
              | some (c :: s1) =>
                if isUpperPy c then
                  match s1 with
                  | '.' :: s2 =>
                    (match tryTail s2 with
                     | some r => some r
                     | none => tryTail s1)
                  | _ => tryTail s1
                else none
              | _ => none
            match withGrp with
            | some r => some r
            | none => tryTail r5
          | none => none
        | none => none
      | _ => none
    | none => none
  else none

/-- Greedy `(?:\s*[A-Z]\.)*\s+` tail of the simple-author pattern
(line 635): consume units greedily, backtracking to fewer units when the
final `\s+` fails. -/
def simpleUnits : Nat → List Char → Option (List Char)
  | 0, l => wsPlus l
  | fuel + 1, l =>
    let tryMore : Option (List Char) :=
      match l.dropWhile isSpacePy with
      | c :: '.' :: r2 => if isUpperPy c then simpleUnits fuel r2 else none
      | _ => none
    match tryMore with
    | some r => some r
    | none => wsPlus l

/-- `re.match(r'^([A-Z][a-z]+,\s*[A-Z]\.(?:\s*[A-Z]\.)*)\s+', text)`
(line 635); payload is the suffix after the match. -/
def simpleAuthorMatch (text : List Char) : Option (List Char) :=
  match capWord text with
  | some (',' :: r1) =>
    (match r1.dropWhile isSpacePy with
     | c :: '.' :: r3 =>
       if isUpperPy c then simpleUnits r3.length r3 else none
     | _ => none)
  | _ => none

/-- Position matcher for `"([^"]+)"` (line 647); payload is group 1. -/
def quoteAt (l : List Char) : Option (List Char) :=
  match l with
  | '"' :: r =>
    let q := r.takeWhile (· ≠ '"')
    if q.isEmpty then none else
    match r.dropWhile (· ≠ '"') with
    | '"' :: _ => some q
    | _ => none
  | _ => none

/-- `_extract_title_fallback` (lines 625-651). -/
def extract_title_fallback (text : List Char) : List Char :=
  match findMatch fullNameEndAt text with
  | some (_, suffix) => extract_title_from_text suffix
  | none =>
  match simpleAuthorMatch text with
  | some rest => extract_title_from_text rest
  | none =>
    let fp := pyFind text ['.', ' ']
    if 0 < fp then extract_title_from_text (text.drop (fp.toNat + 2))
    else
      match (findMatch quoteAt text).map (·.2) with
      | some q => q
      | none => []

/-- `re.sub(r'^[IVXLC]+\.\s*', '', title)` (line 665): anchored, so at most
one replacement, at the start. -/
def romanNumChar (c : Char) : Bool :=
  c = 'I' || c = 'V' || c = 'X' || c = 'L' || c = 'C'

/-- The anchored roman-numeral prefix removal. -/
def romanSub (l : List Char) : List Char :=
  let ro := l.takeWhile romanNumChar
  if ro.isEmpty then l
  else
    match l.dropWhile romanNumChar with
    | '.' :: r => r.dropWhile isSpacePy
    | _ => l

/-- Matcher for `\s*\((?:Vol|No|pp|Chapter)\.?\s*$` → `''` (line 673,
IGNORECASE).  The greedy `\s*$` consumes all trailing whitespace, so a
successful match always extends to the end of the string. -/
def volTrailAt (l : List Char) : Option (List Char × List Char) :=
  match l.dropWhile isSpacePy with
  | '(' :: r1 =>
    let afterWord : Option (List Char) :=
      (icLit ("vol".data) r1) <|> (icLit ("no".data) r1) <|>
      (icLit ("pp".data) r1) <|> (icLit ("chapter".data) r1)
    match afterWord with
    | some r2 =>
      let r3 := dropDotOpt r2
      if r3.all isSpacePy then some ([], []) else none
    | none => none
  | _ => none

/-- Matcher for `\s*\(\d+(?:st|nd|rd|th)?\s*$` → `''` (line 676,
IGNORECASE). -/
def edTrailAt (l : List Char) : Option (List Char × List Char) :=
  match l.dropWhile isSpacePy with
  | '(' :: r1 =>
    let dg := r1.takeWhile isDigitPy
    if dg.isEmpty then none else
    let r2 := r1.dropWhile isDigitPy
    let r3 := ((icLit ("st".data) r2) <|> (icLit ("nd".data) r2) <|>
               (icLit ("rd".data) r2) <|> (icLit ("th".data) r2)).getD r2
    if r3.all isSpacePy then some ([], []) else none
  | _ => none

/-- Index of the last occurrence of `c` (Python `str.rfind`), when present. -/
def rfindCharAux (c : Char) : List Char → Nat → Option Nat → Option Nat
  | [], _, best => best
  | x :: r, i, best => rfindCharAux c r (i + 1) (if x = c then some i else best)

/-- Python `str.rfind(c)` as an option. -/
def rfindChar (c : Char) (l : List Char) : Option Nat := rfindCharAux c l 0 none

/-- `re.match(r'^(?:Vol|No|pp|ed|Chapter|\d+)\.?\s*$', content, IGNORECASE)`
(line 684). -/
def parenContentOk (content : List Char) : Bool :=
  let afterW : Option (List Char) :=
    (icLit ("vol".data) content) <|> (icLit ("no".data) content) <|>
    (icLit ("pp".data) content) <|> (icLit ("ed".data) content) <|>
    (icLit ("chapter".data) content) <|>
    (let dg := content.takeWhile isDigitPy
     if dg.isEmpty then none else some (content.dropWhile isDigitPy))
  match afterW with
  | some r2 => (dropDotOpt r2).all isSpacePy
  | none => false

/-- Matcher for the hyphenation repair `re.sub(r'(\w)-\s+(\w)', r'\1\2', t)`
(line 691). -/
def hyphenAt (l : List Char) : Option (List Char × List Char) :=
  match l with
  | a :: '-' :: r =>
    if isWordPy a && !(r.takeWhile isSpacePy).isEmpty then
      match r.dropWhile isSpacePy with
      | b :: r2 => if isWordPy b then some ([a, b], r2) else none
      | [] => none
    else none
  | _ => none

/-- `_clean_title` (lines 653-693). -/
def clean_title (title0 : List Char) : List Char :=
  if title0.isEmpty then [] else
  let t1 := stripSet ['.', ',', ';', ':'] (pyStrip title0)
  let t2 := collapseWs t1
  let t3 := romanSub t2
  let t4 := stripSet ['"', '\''] t3
  let t5 := subAll volTrailAt t4
  let t6 := subAll edTrailAt t5
  let t7 :=
    if t6.contains '(' && !(t6.contains ')') then
      match rfindChar '(' t6 with
      | some pos =>
        if parenContentOk (t6.drop (pos + 1)) then pyStrip (t6.take pos) else t6
      | none => t6
    else t6
  let t8 := stripSet ['.', ',', ';', ':'] (pyStrip t7)
  subAll hyphenAt t8

/-- The optional date prefix `(?:[A-Za-z]+\s+\d+,\s*)?` of the title year
regex (line 409), returning the remainder when it matches. -/
def optDatePre (r : List Char) : Option (List Char) :=
  if (r.takeWhile isAlphaPy).isEmpty then none else
  let r1 := r.dropWhile isAlphaPy
  if (r1.takeWhile isSpacePy).isEmpty then none else
  let r2 := r1.dropWhile isSpacePy
  if (r2.takeWhile isDigitPy).isEmpty then none else
  match r2.dropWhile isDigitPy with
  | ',' :: r3 => some (r3.dropWhile isSpacePy)
  | _ => none

/-- Position matcher for the title year regex (line 409):
`\((?:[A-Za-z]+\s+\d+,\s*)?(\d{4})(?:,\s*[A-Za-z]+)?\)[.,]?\s*`; payload is
the suffix after the match end (the greedy optional groups are tried first,
falling back without them). -/
def titleYearAt (l : List Char) : Option (List Char) :=
  match l with
  | '(' :: r =>
    let core : List Char → Option (List Char) := fun s =>
      match s with
      | a :: b :: c :: d :: s2 =>
        if isDigitPy a && isDigitPy b && isDigitPy c && isDigitPy d then
          let withOpt : Option (List Char) :=
            match s2 with
            | ',' :: s3 =>
              let s4 := s3.dropWhile isSpacePy
              if (s4.takeWhile isAlphaPy).isEmpty then none else
              (match s4.dropWhile isAlphaPy with
               | ')' :: s5 => some s5
               | _ => none)
            | _ => none
          match withOpt with
          | some s5 => some s5
          | none =>
            match s2 with
            | ')' :: s5 => some s5
            | _ => none
        else none
      | _ => none
    let afterParen : Option (List Char) :=
      match optDatePre r with
      | some r2 =>
        (match core r2 with
         | some s => some s
         | none => core r)
      | none => core r
    match afterParen with
    | some s5 =>
      let s6 := match s5 with
                | c :: s6' => if c = '.' || c = ',' then s6' else s5
                | [] => s5
      some (s6.dropWhile isSpacePy)
    | none => none
  | _ => none

/-- `_extract_title` without the translation special case (lines 407-425). -/
def extract_title_rest (text : List Char) : List Char :=
  match findMatch titleYearAt text with
  | some (_, afterYear) =>
    -- after_year = re.sub(r'^[,.\s]+', '', after_year)
    let afterYear2 := afterYear.dropWhile (fun c => c = ',' || c = '.' || isSpacePy c)
    let t := extract_title_from_text afterYear2
    if !t.isEmpty then clean_title t
    else
      let tf := extract_title_fallback text
      if !tf.isEmpty then clean_title tf else []
  | none =>
    let tf := extract_title_fallback text
    if !tf.isEmpty then clean_title tf else []

/-- `_extract_title` (lines 391-425).  The translation branch slices the
text between the first period and the lower-cased position of
`'translated by'`, stripping and right-stripping periods; when any of its
guards fail the year/fallback logic runs instead. -/
def extract_title (text : List Char) : List Char :=
  if (findMatch transAt text).isSome then
    let fp := pyFind text ['.']
    let tp := pyFind (text.map toLowerPy) ("translated by".data)
    if 0 < fp && fp < tp then
      let title0 := rstripSet ['.']
        (pyStrip ((text.drop (fp.toNat + 1)).take (tp.toNat - (fp.toNat + 1))))
      if !title0.isEmpty then clean_title title0 else extract_title_rest text
    else extract_title_rest text
  else extract_title_rest text

/-! ## pdf_parser.py: the Reference record and the parsing pipeline -/

/-- The `Reference` dataclass (lines 21-32), with strings as `List Char`. -/
structure Reference where
  citation_key : List Char := []
  raw_text : List Char := []
  title : List Char := []
  year : List Char := []
  authors : List (List Char) := []
  first_author : List Char := []
  last_author : List Char := []
  venue : List Char := []
  chapter : List Char := []
  deriving Repr, DecidableEq, Inhabited

/-- `_parse_single_reference` (lines 131-182): build the record, fill in
year, authors, first/last author and title, and emit it only when the
stripped raw text is non-empty. -/
def parse_single_reference (key text chapter : List Char) : Option Reference :=
  let raw := pyStrip text
  let year := extractYearCode key text
  let authors := extract_authors_smart text key
  let firstA := authors.headD []
  let lastA := if 1 < authors.length then authors.getLastD [] else authors.headD []
  let title := extract_title text
  if raw.isEmpty then none
  else some { citation_key := key, raw_text := raw, title := title,
              year := year, authors := authors, first_author := firstA,
              last_author := lastA, venue := [], chapter := chapter }

/-- `re.match(r'^\[([^\]]+)\]', line)` (line 96): a bracketed token at the
start of the line; payload is (group 1, remainder after the match).  The
greedy `[^\]]+` stops exactly at the first `]`. -/
def keyLineMatch (line : List Char) : Option (List Char × List Char) :=
  match line with
  | '[' :: rest =>
    let body := rest.takeWhile (· ≠ ']')
    if body.isEmpty then none else
    match rest.dropWhile (· ≠ ']') with
    | ']' :: tail => some (body, tail)
    | _ => none
  | _ => none

/-- Flush the accumulated entry (lines 100-107 and 120-127): emit only when
both a key and some text have been accumulated, and only when
`_parse_single_reference` returns a record. -/
def flushEntry (chapter key : List Char) (texts : List (List Char)) :
    List Reference :=
  if !key.isEmpty && !texts.isEmpty then
    match parse_single_reference key (joinSpace texts) chapter with
    | some r => [r]
    | none => []
  else []

/-- The per-line state machine of `parse_references` (lines 86-127) over the
lines of one chunk, carrying the current key and accumulated text pieces. -/
def chunkLinesGo (chapter : List Char) :
    List (List Char) → List Char → List (List Char) → List Reference
  | [], key, texts => flushEntry chapter key texts
  | line0 :: rest, key, texts =>
    let line := pyStrip line0
    if line.isEmpty then chunkLinesGo chapter rest key texts
    else
      match keyLineMatch line with
      | some (newKey, after) =>
        let remaining := pyStrip after
        flushEntry chapter key texts ++
          chunkLinesGo chapter rest newKey
            (if remaining.isEmpty then [] else [remaining])
      | none =>
        if !key.isEmpty then chunkLinesGo chapter rest key (texts ++ [line])
        else chunkLinesGo chapter rest key texts

/-- Process one chapter chunk: `chunk.strip().split('\n')` then the state
machine. -/
def processChunk (chapter chunk : List Char) : List Reference :=
  chunkLinesGo chapter (splitChar '\n' (pyStrip chunk)) [] []

/-- Position matcher for the chapter banner
`re.split(r'————\s*Chapter\s*(\d+)\s*————', text)` (line 69; four em-dash
characters on each side); payload is (group 1, suffix after the match). -/
def chapterMarkAt (l : List Char) : Option (List Char × List Char) :=
  match l with
  | '—' :: '—' :: '—' :: '—' :: r =>
    let r1 := r.dropWhile isSpacePy
    if startsWithL r1 ("Chapter".data) then
      let r2 := (r1.drop 7).dropWhile isSpacePy
      let dg := r2.takeWhile isDigitPy
      if dg.isEmpty then none else
      let r3 := (r2.dropWhile isDigitPy).dropWhile isSpacePy
      (match r3 with
       | '—' :: '—' :: '—' :: '—' :: r4 => some (dg, r4)
       | _ => none)
    else none
  | _ => none

/-- `re.split` with one capture group: the pieces interleaved with the
captured groups. -/
def chapterSplitAux : Nat → List Char → List Char → List (List Char)
  | 0, accRev, l => [accRev.reverse ++ l]
  | _, accRev, [] => [accRev.reverse]
  | fuel + 1, accRev, c :: rest =>
    match chapterMarkAt (c :: rest) with
    | some (g, suffix) => accRev.reverse :: g :: chapterSplitAux fuel [] suffix
    | none => chapterSplitAux fuel (c :: accRev) rest

/-- `re.split(chapter_pattern, raw_text)`. -/
def chapterSplit (l : List Char) : List (List Char) :=
  chapterSplitAux l.length [] l

/-- The chunk loop of `parse_references` (lines 74-127): odd indices are
chapter numbers, even indices are content; the index-0 chunk is dropped when
it contains "Bibliography". -/
def parseRefsGo : List (List Char) → Nat → List Char → List Reference
  | [], _, _ => []
  | chunk :: rest, i, chapter =>
    if i % 2 = 1 then parseRefsGo rest (i + 1) (("Chapter ".data) ++ chunk)
    else if i = 0 && containsSub chunk ("Bibliography".data) then
      parseRefsGo rest (i + 1) chapter
    else processChunk chapter chunk ++ parseRefsGo rest (i + 1) chapter

/-- `parse_references` (lines 63-129) as a pure function of the extracted
text (`self.raw_text`); text acquisition (`extract_text`) is the excluded
upstream collaborator. -/
def parse_references (text : List Char) : List Reference :=
  parseRefsGo (chapterSplit text) 0 ("Unknown".data)

/-! ## pdf_extractor.py (lines 32-80) -/

/-- The class `[—\-]` (em-dash or hyphen). -/
def isDashX (c : Char) : Bool := c = '—' || c = '-'

/-- The lazy `.*?[—\-]{3,}` tail of the chapter-marker pattern: advance to
the earliest position (never across a newline, which `.` cannot match)
where a run of 3+ dashes starts, then consume the whole greedy run;
returns the suffix after the run. -/
def chapLazy2 : List Char → Option (List Char)
  | [] => none
  | c :: rest =>
    let run := (c :: rest).takeWhile isDashX
    if 3 ≤ run.length then some ((c :: rest).drop run.length)
    else if c = '\n' then none
    else chapLazy2 rest

/-- The `Chapter\s+\d+.*?[—\-]{3,}` tail, tried at one position. -/
def chapTail (m : List Char) : Option (List Char) :=
  if startsWithL m ("Chapter".data) then
    let r1 := m.drop 7
    if (r1.takeWhile isSpacePy).isEmpty then none else
    let r2 := r1.dropWhile isSpacePy
    if (r2.takeWhile isDigitPy).isEmpty then none else
    chapLazy2 (r2.dropWhile isDigitPy)
  else none

/-- The lazy `.*?` before `Chapter`: try the tail at each position, earliest
first, stopping at a newline (`.` cannot match `\n`; `\s+` inside the tail
may). -/
def chapLazy1 : List Char → Option (List Char)
  | [] => none
  | c :: rest =>
    match chapTail (c :: rest) with
    | some s => some s
    | none => if c = '\n' then none else chapLazy1 rest

/-- Matcher for `re.sub(r'[—\-]{3,}.*?Chapter\s+\d+.*?[—\-]{3,}', '', text)`
(lines 37-40): a greedy run of 3+ dashes, then the lazy tail. -/
def chapMarkAt (l : List Char) : Option (List Char × List Char) :=
  let run := l.takeWhile isDashX
  if 3 ≤ run.length then
    match chapLazy1 (l.drop run.length) with
    | some suffix => some ([], suffix)
    | none => none
  else none

/-- Matcher for `re.sub(r'\n[—\-]{4,}\n', '\n', text)` (lines 43-44): a
newline, a greedy run of 4+ dashes, a newline; replaced by one newline. -/
def standaloneDashAt (l : List Char) : Option (List Char × List Char) :=
  match l with
  | '\n' :: r =>
    let run := r.takeWhile isDashX
    if 4 ≤ run.length then
      (match r.drop run.length with
       | '\n' :: r2 => some (['\n'], r2)
       | _ => none)
    else none
  | _ => none

/-- `remove_chapter_markers` (lines 32-46): the chapter-banner removal
followed by the standalone-dash-line removal. -/
def remove_chapter_markers (text : List Char) : List Char :=
  subAll standaloneDashAt (subAll chapMarkAt text)

/-- Apostrophe class `[\'‘’]` of the reference marker pattern. -/
def aposRefClass (c : Char) : Bool := c = '\'' || c = '‘' || c = '’'

/-- Tail check for the reference marker: `\d{2,4}(?:\s+[A-Z])?` followed
directly by the closing `]` (so the remainder must be empty): the digit run
must have length 2-4 and the optional `\s+[A-Z]` must finish the bracket
body. -/
def refDigitsTail (s : List Char) : Bool :=
  let k := (s.takeWhile isDigitPy).length
  decide (2 ≤ k) && decide (k ≤ 4) &&
  (let rest := s.drop k
   rest.isEmpty ||
   (match wsPlus rest with
    | some (c :: r2) => isUpperPy c && r2.isEmpty
    | _ => false))

/-- Scan the bracket body (which contains no `]`) for an apostrophe preceded
by at least one body character (`[^\]]+`) and followed by the digit tail. -/
def refInnerScan : Nat → List Char → Bool
  | consumed, c :: rest =>
    (decide (1 ≤ consumed) && aposRefClass c && refDigitsTail rest) ||
    refInnerScan (consumed + 1) rest
  | _, [] => false

/-- Position matcher for
`r'\[[^\]]+[\'‘’]\d{2,4}(?:\s+[A-Z])?\]'` (pdf_extractor line 58
and reference_parser line 21): since no sub-pattern can match `]`, the
match is exactly the bracket up to the first `]`; payload is (the full
matched text, the suffix after it). -/
def refMarkerAt (l : List Char) : Option (List Char × List Char) :=
  match l with
  | '[' :: r =>
    let inner := r.takeWhile (· ≠ ']')
    (match r.dropWhile (· ≠ ']') with
     | ']' :: tail =>
       if !inner.isEmpty && refInnerScan 0 inner then
         some ('[' :: (inner ++ [']']), tail)
       else none
     | _ => none)
  | _ => none

/-- Leftmost reference-marker search returning (offset, match length). -/
def findMarkerIdx : List Char → Option (Nat × Nat)
  | [] => none
  | c :: rest =>
    match refMarkerAt (c :: rest) with
    | some (m, _) => some (0, m.length)
    | none => (findMarkerIdx rest).map (fun p => (p.1 + 1, p.2))

/-- Collect the flattened entries (lines 70-78): with `l` positioned at a
match of length `mlen`, the entry runs to the start of the next match found
after the current match end (non-overlapping `finditer`), or to the end of
the text; each entry is stripped. -/
def splitRefsGo : Nat → List Char → Nat → List (List Char)
  | 0, l, _ => [pyStrip l]
  | fuel + 1, l, mlen =>
    match findMarkerIdx (l.drop mlen) with
    | some (k, mlen2) =>
      pyStrip (l.take (mlen + k)) :: splitRefsGo fuel (l.drop (mlen + k)) mlen2
    | none => [pyStrip l]

/-- `split_into_references` (lines 48-80): remove chapter markers, flatten
newlines to spaces, then slice the text at the reference markers. -/
def split_into_references (text : List Char) : List (List Char) :=
  let cleaned := (remove_chapter_markers text).map
    (fun c => if c = '\n' then ' ' else c)
  match findMarkerIdx cleaned with
  | some (k, mlen) => splitRefsGo cleaned.length (cleaned.drop k) mlen
  | none => []

/-! ## reference_parser.py: extract_citation_key (lines 17-23) -/

/-- `extract_citation_key`: the full text (`group(0)`) of the first
reference-marker match, or the empty string. -/
def extract_citation_key (reference : List Char) : List Char :=
  match findMatch refMarkerAt reference with
  | some (_, (m, _)) => m
  | none => []

/-! ## Spec-side counting functions for the segmentation claims -/

/-- Spec-side count of key lines in a chunk: the number of lines whose
stripped text matches the key-line pattern `^\[([^\]]+)\]` (claim C5's
"number of lines in the chunk that match the key-line pattern"). -/
def specKeyLineCount (chunk : List Char) : Nat :=
  ((splitChar '\n' (pyStrip chunk)).filter
    (fun l => (keyLineMatch (pyStrip l)).isSome)).length

/-- Count of the entries the state machine emits: a key line is counted when
its entry accumulates at least one text piece (trailing text on the key line
or a later non-blank non-key line) by the time it is flushed.  The two
booleans mirror `current_key`/`current_ref_text` being non-empty. -/
def segEmitCount : List (List Char) → Bool → Bool → Nat
  | [], haveKey, haveText => if haveKey && haveText then 1 else 0
  | line0 :: rest, haveKey, haveText =>
    let line := pyStrip line0
    if line.isEmpty then segEmitCount rest haveKey haveText
    else
      match keyLineMatch line with
      | some (_, after) =>
        (if haveKey && haveText then 1 else 0) +
          segEmitCount rest true (!(pyStrip after).isEmpty)
      | none =>
        if haveKey then segEmitCount rest haveKey true
        else segEmitCount rest haveKey haveText

/-- The emitted-entry count of a chunk, per the amended claim C5. -/
def chunkEmitCount (chunk : List Char) : Nat :=
  segEmitCount (splitChar '\n' (pyStrip chunk)) false false

/-! ## Spec-side predicates and concrete evaluation points -/

/-- Does the text contain a run of three or more dash/em-dash characters
(the minimum either normalizer pattern needs)? -/
def hasDashRun3 : List Char → Bool
  | a :: b :: c :: rest =>
    (isDashX a && isDashX b && isDashX c) || hasDashRun3 (b :: c :: rest)
  | _ => false

/-- First and last character free of the normalizer's strip set `'.,;: '`
and of whitespace. -/
def noEdgePunct (r : List Char) : Bool :=
  (match r.head? with
   | some c => !(['.', ',', ';', ':', ' '].contains c) && !isSpacePy c
   | none => true) &&
  (match r.getLast? with
   | some c => !(['.', ',', ';', ':', ' '].contains c) && !isSpacePy c
   | none => true)

/-- Concrete translation-entry text used by the C1 witness. -/
def c1text : List Char := "Translated by D. R. Hill (1979).".data

/-- The record parsed from `c1text`. -/
def c1ref : Reference :=
  (parse_single_reference ("Hill '79".data) c1text ("Unknown".data)).getD default

/-- The key `Hill '79` in the decomposed shape of theorem C2. -/
def c2keyHill : List Char := "Hill ".data ++ '\'' :: '7' :: '9' :: []

/-- The record parsed with key `c2keyHill`. -/
def c2refHill : Reference :=
  (parse_single_reference c2keyHill ("x".data) ("Unknown".data)).getD default

/-- The key `Chen '20 A` in the decomposed shape of theorem C2. -/
def c2keyChen : List Char := "Chen ".data ++ '\'' :: '2' :: '0' :: (" A".data)

/-- The record parsed with key `c2keyChen`. -/
def c2refChen : Reference :=
  (parse_single_reference c2keyChen ("x".data) ("Unknown".data)).getD default

/-- Concrete translation entry (spec section 8) used by the C7 witness. -/
def c7text : List Char :=
  ("Banu Musa brothers (9th century). The book of ingenious devices " ++
   "(Kitab al-hiyal). Translated by D. R. Hill (1979), Springer, p. 44, " ++
   "ISBN 90-277-0833-9.").data

/-- The record parsed from `c7text`. -/
def c7ref : Reference :=
  (parse_single_reference ("Hill '79".data) c7text ("Unknown".data)).getD default

/-- Concrete document text for the C9 counterexample and witness. -/
def c9input : List Char := "[Hill '79] N. Wiener (1948). x".data

/-- The single record `parse_references` emits for `c9input`. -/
def c9ref : Reference := (parse_references c9input).headD default

/-- Concrete document whose translation entry has a digits-only author. -/
def c10input : List Char := "[X '99] Translated by 12 (1979).".data

/-! ## Helper lemmas -/

theorem findMatch_some {α : Type} (m : List Char → Option α) :
    ∀ (l : List Char) (i : Nat) (a : α), findMatch m l = some (i, a) →
      ∃ s, m s = some a := by
  intro l
  induction l with
  | nil =>
    intro i a h
    simp only [findMatch, Option.map_eq_some'] at h
    obtain ⟨x, hx, he⟩ := h
    injection he with h1 h2
    exact ⟨[], by rw [hx, h2]⟩
  | cons c rest ih =>
    intro i a h
    unfold findMatch at h
    split at h
    · injection h with h'
      injection h' with h1 h2
      rename_i a' hm
      exact ⟨c :: rest, by rw [hm, h2]⟩
    · simp only [Option.map_eq_some'] at h
      obtain ⟨⟨p1, p2⟩, hp, he⟩ := h
      injection he with h1 h2
      exact h2 ▸ ih p1 p2 hp

theorem yearParenAt_length (l ds : List Char) (h : yearParenAt l = some ds) :
    ds.length = 4 := by
  unfold yearParenAt at h
  repeat' split at h
  all_goals first
    | (injection h with h'; rw [← h']; rfl)
    | exact absurd h (by simp)

theorem yearEndAt_length (l ds : List Char) (h : yearEndAt l = some ds) :
    ds.length = 4 := by
  unfold yearEndAt at h
  dsimp only [] at h
  repeat' split at h
  all_goals first
    | (injection h with h'; rw [← h']; rfl)
    | exact absurd h (by simp)

theorem yearDateAt_length (l ds : List Char) (h : yearDateAt l = some ds) :
    ds.length = 4 := by
  unfold yearDateAt at h
  dsimp only [] at h
  repeat' split at h
  all_goals first
    | (injection h with h'; rw [← h']; rfl)
    | exact absurd h (by simp)

theorem yearKeySearch_some_len :
    ∀ (key ds : List Char), yearKeySearch key = some ds → 2 ≤ ds.length := by
  intro key
  induction key with
  | nil => intro ds h; simp [yearKeySearch] at h
  | cons c rest ih =>
    intro ds h
    unfold yearKeySearch at h
    dsimp only [] at h
    split at h
    · split at h
      · injection h with h'
        rw [← h']
        assumption
      · exact ih ds h
    · exact ih ds h

theorem yearParenSearch_ne_nil (l ds : List Char)
    (h : yearParenSearch l = some ds) : ds ≠ [] := by
  unfold yearParenSearch at h
  rw [Option.map_eq_some'] at h
  obtain ⟨⟨p1, p2⟩, hp, he⟩ := h
  obtain ⟨s, hs⟩ := findMatch_some yearParenAt l p1 p2 hp
  have hl := yearParenAt_length s p2 hs
  dsimp only [] at he
  subst he
  intro hnil
  rw [hnil] at hl
  simp at hl

theorem yearEndSearch_ne_nil (l ds : List Char)
    (h : yearEndSearch l = some ds) : ds ≠ [] := by
  unfold yearEndSearch at h
  rw [Option.map_eq_some'] at h
  obtain ⟨⟨p1, p2⟩, hp, he⟩ := h
  obtain ⟨s, hs⟩ := findMatch_some yearEndAt l p1 p2 hp
  have hl := yearEndAt_length s p2 hs
  dsimp only [] at he
  subst he
  intro hnil
  rw [hnil] at hl
  simp at hl

theorem yearDateSearch_ne_nil (l ds : List Char)
    (h : yearDateSearch l = some ds) : ds ≠ [] := by
  unfold yearDateSearch at h
  rw [Option.map_eq_some'] at h
  obtain ⟨⟨p1, p2⟩, hp, he⟩ := h
  obtain ⟨s, hs⟩ := findMatch_some yearDateAt l p1 p2 hp
  have hl := yearDateAt_length s p2 hs
  dsimp only [] at he
  subst he
  intro hnil
  rw [hnil] at hl
  simp at hl

/-- The record fields produced by a successful `_parse_single_reference`. -/
theorem psr_fields {key text chapter : List Char} {r : Reference}
    (h : parse_single_reference key text chapter = some r) :
    r.citation_key = key ∧ r.raw_text = pyStrip text ∧
    r.year = extractYearCode key text ∧
    r.authors = extract_authors_smart text key ∧
    r.first_author = (extract_authors_smart text key).headD [] ∧
    r.last_author = (if 1 < (extract_authors_smart text key).length then
        (extract_authors_smart text key).getLastD []
      else (extract_authors_smart text key).headD []) ∧
    r.title = extract_title text ∧ r.venue = [] ∧ r.chapter = chapter := by
  unfold parse_single_reference at h
  dsimp only [] at h
  split at h
  · simp at h
  · rw [Option.some.injEq] at h
    subst h
    exact ⟨rfl, rfl, rfl, rfl, rfl, rfl, rfl, rfl, rfl⟩

/-! ## Claim theorems: C8, C1, C3, C2 -/

/-- Claim C8: when the input text is the empty string, the parse yields zero
Reference records; the parse is a total Lean function, so no exception can
arise. -/
theorem c8_empty_input : parse_references [] = [] := rfl

/-- Claim C1: for every emitted Reference record, an authors list with at
most one element forces `first_author = last_author`; both are the empty
string when the list is empty and both equal the single element when the
list is a singleton. -/
theorem c1_first_last (key text chapter : List Char) (r : Reference)
    (h : parse_single_reference key text chapter = some r)
    (hlen : r.authors.length ≤ 1) :
    r.first_author = r.last_author ∧
    (r.authors = [] → r.first_author = [] ∧ r.last_author = []) ∧
    (∀ a, r.authors = [a] → r.first_author = a ∧ r.last_author = a) := by
  obtain ⟨-, -, -, hA, hF, hL, -, -, -⟩ := psr_fields h
  cases hAs : extract_authors_smart text key with
  | nil =>
    rw [hAs] at hF hL hA
    simp only [List.headD, List.length_nil] at hF hL
    rw [if_neg (by omega)] at hL
    refine ⟨by rw [hF, hL], fun _ => ⟨hF, hL⟩, ?_⟩
    intro a ha
    rw [hA] at ha
    exact absurd ha.symm (List.cons_ne_nil a [])
  | cons x xs =>
    cases xs with
    | nil =>
      rw [hAs] at hF hL hA
      simp only [List.headD, List.length_cons, List.length_nil] at hF hL
      rw [if_neg (by omega)] at hL
      refine ⟨by rw [hF, hL], ?_, ?_⟩
      · intro habs
        rw [hA] at habs
        exact absurd habs (List.cons_ne_nil x [])
      · intro a ha
        rw [hA] at ha
        injection ha with h1 h2
        subst h1
        exact ⟨hF, hL⟩
    | cons y ys =>
      rw [hA, hAs] at hlen
      simp at hlen

/-- Witness for C1: the record of a concrete single-author translation
entry. -/
theorem c1_first_last_witness :
    parse_single_reference ("Hill '79".data) c1text ("Unknown".data) =
      some c1ref ∧
    c1ref.authors.length ≤ 1 ∧ c1ref.first_author = c1ref.last_author :=
  ⟨by decide, by decide,
   (c1_first_last ("Hill '79".data) c1text ("Unknown".data) c1ref
     (by decide) (by decide)).1⟩

/-- Claim C3: year extraction is the ordered four-stage cascade with
first-match-wins: the guarded imperative code (`extractYearCode`, compiled
from lines 139-170) equals the ordered alternative composition of the four
stage searches, so a later stage runs only when all earlier stages produced
nothing and a set year is never overwritten. -/
theorem c3_year_cascade (key text : List Char) :
    extractYearCode key text = (yearCascadeSpec key text).getD [] := by
  unfold extractYearCode yearCascadeSpec
  cases hk : yearKeySearch key with
  | some ds =>
    have h2 := yearKeySearch_some_len key ds hk
    have hne : (if ds.length = 2 then
        if 50 < digitsToNat ds then '1' :: '9' :: ds else '2' :: '0' :: ds
      else ds) ≠ [] := by
      split
      · split <;> simp
      · intro hnil
        rw [hnil] at h2
        simp at h2
    simp [yearFromKey, hk, List.isEmpty_iff, hne]
  | none =>
    simp only [yearFromKey, hk, List.isEmpty_nil, if_true]
    cases hp : yearParenSearch text with
    | some ds =>
      have hne := yearParenSearch_ne_nil text ds hp
      simp [hp, List.isEmpty_iff, hne]
    | none =>
      simp only [hp]
      cases he : yearEndSearch text with
      | some ds =>
        have hne := yearEndSearch_ne_nil text ds he
        simp [he, List.isEmpty_iff, hne]
      | none =>
        simp only [he]
        cases hd : yearDateSearch text with
        | some ds => simp [hd]
        | none => simp [hd]

theorem yearKeySearch_skip (a : List Char) :
    ∀ (l : List Char), (∀ c ∈ a, ¬ c = '\'') →
      yearKeySearch (a ++ l) = yearKeySearch l := by
  induction a with
  | nil => intro l _; rfl
  | cons c rest ih =>
    intro l ha
    have hc : ¬ c = '\'' := ha c (List.mem_cons_self c rest)
    rw [List.cons_append]
    conv_lhs => rw [yearKeySearch]
    rw [if_neg hc]
    exact ih l (fun x hx => ha x (List.mem_cons_of_mem c hx))

theorem yearKeySearch_hit (b : List Char) (d1 d2 : Char)
    (h1 : isDigitPy d1 = true) (h2 : isDigitPy d2 = true)
    (hb : ∀ c, b.head? = some c → isDigitPy c = false) :
    yearKeySearch ('\'' :: d1 :: d2 :: b) = some [d1, d2] := by
  have htw : (d1 :: d2 :: b).takeWhile isDigitPy = [d1, d2] := by
    cases b with
    | nil => simp [List.takeWhile_cons, h1, h2]
    | cons x xs =>
      have hx := hb x rfl
      simp [List.takeWhile_cons, h1, h2, hx]
  conv_lhs => rw [yearKeySearch]
  rw [if_pos rfl]
  dsimp only []
  rw [htw]
  rfl

/-- Claim C2: for a citation key whose first apostrophe is followed by
exactly two digits `YY`, the extracted year is `19YY` when `YY > 50` and
`20YY` when `YY ≤ 50`; the witness instantiates this at `Hill '79` (year
`1979`) and `Chen '20 A` (year `2020`). -/
theorem c2_two_digit_pivot (a b : List Char) (d1 d2 : Char)
    (ha : ∀ c ∈ a, ¬ c = '\'')
    (h1 : isDigitPy d1 = true) (h2 : isDigitPy d2 = true)
    (hb : ∀ c, b.head? = some c → isDigitPy c = false)
    (text chapter : List Char) (r : Reference)
    (h : parse_single_reference (a ++ '\'' :: d1 :: d2 :: b) text chapter =
      some r) :
    r.year = if 50 < digitsToNat [d1, d2] then '1' :: '9' :: [d1, d2]
             else '2' :: '0' :: [d1, d2] := by
  obtain ⟨-, -, hy, -, -, -, -, -, -⟩ := psr_fields h
  rw [hy]
  unfold extractYearCode yearFromKey
  rw [yearKeySearch_skip a _ ha, yearKeySearch_hit b d1 d2 h1 h2 hb]
  dsimp only []
  by_cases hpiv : 50 < digitsToNat [d1, d2]
  · simp [hpiv]
  · simp [hpiv]

/-- Witness for C2: the two keys named in the claim. -/
theorem c2_two_digit_pivot_witness :
    (parse_single_reference c2keyHill ("x".data) ("Unknown".data) =
       some c2refHill ∧ c2refHill.year = "1979".data) ∧
    (parse_single_reference c2keyChen ("x".data) ("Unknown".data) =
       some c2refChen ∧ c2refChen.year = "2020".data) := by
  refine ⟨⟨by decide, ?_⟩, ⟨by decide, ?_⟩⟩
  · have hgen := c2_two_digit_pivot ("Hill ".data) [] '7' '9' (by decide)
      (by decide) (by decide) (by decide) ("x".data) ("Unknown".data)
      c2refHill (by decide)
    exact hgen.trans (by decide)
  · have hgen := c2_two_digit_pivot ("Chen ".data) (" A".data) '2' '0'
      (by decide) (by decide) (by decide) (by decide) ("x".data)
      ("Unknown".data) c2refChen (by decide)
    exact hgen.trans (by decide)

/-! ## Claim C4: normalizer idempotence -/

theorem subAllAux_id_of_nomatch
    (m : List Char → Option (List Char × List Char)) (P : List Char → Prop)
    (hm : ∀ l, P l → m l = none)
    (ht : ∀ c rest, P (c :: rest) → P rest) :
    ∀ (fuel : Nat) (l : List Char), P l → subAllAux m fuel l = l := by
  intro fuel
  induction fuel with
  | zero => intro l _; cases l <;> rfl
  | succ n ih =>
    intro l hP
    cases l with
    | nil => rfl
    | cons c rest =>
      have hnone := hm (c :: rest) hP
      simp only [subAllAux, hnone]
      rw [ih rest (ht c rest hP)]

theorem takeWhile_len_le (p : Char → Bool) :
    ∀ (l : List Char), (l.takeWhile p).length ≤ l.length := by
  intro l
  induction l with
  | nil => simp
  | cons a rest ih =>
    rw [List.takeWhile_cons]
    cases p a
    · simp
    · simpa using ih

theorem dashRun3_of_takeWhile : ∀ (l : List Char),
    3 ≤ (l.takeWhile isDashX).length → hasDashRun3 l = true := by
  intro l h
  match l with
  | [] => simp at h
  | [a] =>
    have hle := takeWhile_len_le isDashX [a]
    simp at hle
    omega
  | [a, b] =>
    have hle := takeWhile_len_le isDashX [a, b]
    simp at hle
    omega
  | a :: b :: c :: rest =>
    by_cases hda : isDashX a
    · by_cases hdb : isDashX b
      · by_cases hdc : isDashX c
        · unfold hasDashRun3
          simp [hda, hdb, hdc]
        · exfalso
          simp [List.takeWhile_cons, hda, hdb, hdc] at h
      · exfalso
        simp [List.takeWhile_cons, hda, hdb] at h
    · exfalso
      simp [List.takeWhile_cons, hda] at h

theorem hasDashRun3_tail (a : Char) (l : List Char)
    (h : hasDashRun3 (a :: l) = false) : hasDashRun3 l = false := by
  match l with
  | [] => rfl
  | [b] => rfl
  | b :: c :: rest =>
    unfold hasDashRun3 at h
    simp only [Bool.or_eq_false_iff] at h
    exact h.2

theorem chapMarkAt_none (l : List Char) (h : hasDashRun3 l = false) :
    chapMarkAt l = none := by
  have hlt : ¬ 3 ≤ (l.takeWhile isDashX).length := by
    intro h3
    have := dashRun3_of_takeWhile l h3
    rw [h] at this
    exact absurd this (by simp)
  unfold chapMarkAt
  dsimp only []
  rw [if_neg hlt]

theorem standaloneDashAt_none (l : List Char) (h : hasDashRun3 l = false) :
    standaloneDashAt l = none := by
  cases l with
  | nil => rfl
  | cons c rest =>
    by_cases hc : c = '\n'
    · subst hc
      have h4 : ¬ 4 ≤ (rest.takeWhile isDashX).length := by
        intro h4
        have h3 : 3 ≤ (rest.takeWhile isDashX).length := by omega
        have := dashRun3_of_takeWhile rest h3
        rw [hasDashRun3_tail '\n' rest h] at this
        exact absurd this (by simp)
      unfold standaloneDashAt
      split
      · rename_i r heq
        injection heq with h1 h2
        subst h2
        rw [if_neg h4]
      · rfl
    · unfold standaloneDashAt
      split
      · rename_i heq
        injection heq with h1 h2
        exact absurd h1 hc
      · rfl

/-- Counterexample to claim C4: TextNormalizer is not idempotent.  On the
text of two adjacent standalone dash lines, `re.sub(r'\n[—\-]{4,}\n', '\n')`
finds only one (non-overlapping) match, the second run finds and deletes
another. -/
theorem c4_counterexample :
    remove_chapter_markers ("\n----\n----\n".data) = "\n----\n".data ∧
    remove_chapter_markers (remove_chapter_markers ("\n----\n----\n".data)) =
      "\n".data ∧
    remove_chapter_markers (remove_chapter_markers ("\n----\n----\n".data)) ≠
      remove_chapter_markers ("\n----\n----\n".data) :=
  ⟨by decide, by decide, by decide⟩

/-- Amended claim C4: on any text with no run of three or more dash/em-dash
characters, neither normalizer pattern can match, so the normalizer is the
identity and in particular idempotent; in general a second run may delete
more (see the counterexample). -/
theorem c4_amended (t : List Char) (h : hasDashRun3 t = false) :
    remove_chapter_markers t = t ∧
    remove_chapter_markers (remove_chapter_markers t) =
      remove_chapter_markers t := by
  have h1 : subAll chapMarkAt t = t :=
    subAllAux_id_of_nomatch chapMarkAt (fun l => hasDashRun3 l = false)
      chapMarkAt_none (fun c rest hp => hasDashRun3_tail c rest hp)
      t.length t h
  have h2 : subAll standaloneDashAt t = t :=
    subAllAux_id_of_nomatch standaloneDashAt (fun l => hasDashRun3 l = false)
      standaloneDashAt_none (fun c rest hp => hasDashRun3_tail c rest hp)
      t.length t h
  have hid : remove_chapter_markers t = t := by
    unfold remove_chapter_markers
    rw [h1, h2]
  exact ⟨hid, by rw [hid, hid]⟩

/-- Witness for the amended C4 at a concrete dash-free text. -/
theorem c4_amended_witness :
    hasDashRun3 ("Hello\nWorld".data) = false ∧
    remove_chapter_markers ("Hello\nWorld".data) = "Hello\nWorld".data ∧
    remove_chapter_markers (remove_chapter_markers ("Hello\nWorld".data)) =
      remove_chapter_markers ("Hello\nWorld".data) :=
  ⟨by decide, (c4_amended ("Hello\nWorld".data) (by decide)).1,
   (c4_amended ("Hello\nWorld".data) (by decide)).2⟩

/-! ## Claim C6: the two segmentation strategies -/

/-- Counterexample to claim C6: the strategies are not functionally
equivalent.  On "[Foo] bar" the line-oriented state machine yields one
entry while the flattened-span segmentation (whose key pattern demands an
apostrophe-year) yields none. -/
theorem c6_counterexample :
    (parse_references ("[Foo] bar".data)).length = 1 ∧
    split_into_references ("[Foo] bar".data) = [] :=
  ⟨by decide, by decide⟩

/-- Amended claim C6: the strategies differ in key pattern and in entry
text.  The flattened-span segmentation accepts only apostrophe-year keys
and retains the citation-key text inside each entry, while the
line-oriented machine accepts any bracketed token and strips it into the
`citation_key` field: on "[Hill '79] b" both find one entry, the flattened
entry being the whole "[Hill '79] b" while the line-oriented record holds
key "Hill '79" and text "b"; on "[Foo] bar" only the line-oriented
strategy finds an entry. -/
theorem c6_amended :
    split_into_references ("[Hill '79] b".data) = ["[Hill '79] b".data] ∧
    (parse_references ("[Hill '79] b".data)).map
      (fun r => (r.citation_key, r.raw_text)) =
      [("Hill '79".data, "b".data)] ∧
    (parse_references ("[Foo] bar".data)).map
      (fun r => (r.citation_key, r.raw_text)) =
      [("Foo".data, "bar".data)] :=
  ⟨by decide, by decide, by decide⟩

/-! ## Counterexamples for claims C5 and C10 -/

/-- Counterexample to claim C5: a key line with no trailing text followed
directly by another key line is never emitted, so the emitted count (1)
differs from the key-line-match count (2). -/
theorem c5_counterexample :
    (parse_references ("[A '99]\n[B '98] x".data)).length = 1 ∧
    (processChunk ("Unknown".data) ("[A '99]\n[B '98] x".data)).length = 1 ∧
    specKeyLineCount ("[A '99]\n[B '98] x".data) = 2 :=
  ⟨by decide, by decide, by decide⟩

/-- Counterexample to claim C10: the "Translated by" path returns the
normalized translator without the length/digit filter, so a record can
carry an author consisting solely of digits. -/
theorem c10_counterexample :
    (parse_references c10input).map (fun r => r.authors) = [["12".data]] ∧
    ("12".data).all isDigitPy = true ∧
    ("12".data).all digitPunctClass = true :=
  ⟨by decide, by decide, by decide⟩

/-! ## Claim C5: segmentation count -/

theorem dropWhile_head_not (p : Char → Bool) :
    ∀ (l : List Char) (c : Char) (t : List Char),
      List.dropWhile p l = c :: t → p c = false := by
  intro l
  induction l with
  | nil => intro c t h; simp at h
  | cons a rest ih =>
    intro c t h
    rw [List.dropWhile_cons] at h
    split at h
    · exact ih c t h
    · injection h with h1 h2
      subst h1
      rename_i hpa
      simpa using hpa

theorem pyStrip_all_space {l : List Char} (h : pyStrip l = []) :
    ∀ c ∈ l, isSpacePy c = true := by
  unfold pyStrip at h
  rw [List.reverse_eq_nil_iff] at h
  have h2 := List.dropWhile_eq_nil_iff.mp h
  intro c hc
  rw [← List.takeWhile_append_dropWhile (p := isSpacePy) (l := l)] at hc
  rcases List.mem_append.mp hc with h1 | h1
  · exact List.mem_takeWhile_imp h1
  · exact h2 c (List.mem_reverse.mpr h1)

theorem pyStrip_ne_nil_of_mem {l : List Char} {c : Char} (hc : c ∈ l)
    (hns : isSpacePy c = false) : pyStrip l ≠ [] := by
  intro hnil
  have := pyStrip_all_space hnil c hc
  rw [hns] at this
  exact absurd this (by simp)

theorem pyStrip_has_nonspace {x : List Char} (h : pyStrip x ≠ []) :
    ∃ c ∈ pyStrip x, isSpacePy c = false := by
  unfold pyStrip at *
  cases hd : List.dropWhile isSpacePy ((x.dropWhile isSpacePy).reverse) with
  | nil => rw [hd] at h; simp at h
  | cons c t =>
    refine ⟨c, ?_, dropWhile_head_not _ _ _ _ hd⟩
    exact List.mem_reverse.mpr (List.mem_cons_self c t)

theorem mem_joinSpace_head {p : List Char} {ps : List (List Char)} {c : Char}
    (hc : c ∈ p) : c ∈ joinSpace (p :: ps) := by
  cases ps with
  | nil => exact hc
  | cons q qs =>
    unfold joinSpace
    exact List.mem_append.mpr (Or.inl hc)

theorem psr_isSome {key text chapter : List Char} (h : pyStrip text ≠ []) :
    (parse_single_reference key text chapter).isSome = true := by
  unfold parse_single_reference
  dsimp only []
  rw [if_neg (by simpa [List.isEmpty_iff] using h)]
  rfl

theorem flushEntry_length (chapter key : List Char) (texts : List (List Char))
    (hinv : ∀ t ∈ texts, ∃ c ∈ t, isSpacePy c = false) :
    (flushEntry chapter key texts).length =
      if !key.isEmpty && !texts.isEmpty then 1 else 0 := by
  unfold flushEntry
  split
  · rename_i hcond
    have htne : texts ≠ [] := by
      intro hnil
      subst hnil
      simp at hcond
    obtain ⟨t0, ts, rfl⟩ : ∃ t0 ts, texts = t0 :: ts := by
      cases texts with
      | nil => exact absurd rfl htne
      | cons a b => exact ⟨a, b, rfl⟩
    obtain ⟨c, hcmem, hcns⟩ := hinv t0 (List.mem_cons_self t0 ts)
    have hne : pyStrip (joinSpace (t0 :: ts)) ≠ [] :=
      pyStrip_ne_nil_of_mem (mem_joinSpace_head hcmem) hcns
    have hs := @psr_isSome key (joinSpace (t0 :: ts)) chapter hne
    cases hps : parse_single_reference key (joinSpace (t0 :: ts)) chapter with
    | none => rw [hps] at hs; simp at hs
    | some r => rfl
  · rfl

theorem keyLineMatch_props (line k after : List Char)
    (h : keyLineMatch line = some (k, after)) :
    k ≠ [] ∧ ']' ∉ k ∧ k.isEmpty = false := by
  unfold keyLineMatch at h
  split at h
  · dsimp only [] at h
    split at h
    · exact absurd h (by simp)
    · rename_i hne
      split at h
      · injection h with h1
        injection h1 with hk ha
        subst hk
        refine ⟨by simpa [List.isEmpty_iff] using hne, ?_, by simpa using hne⟩
        intro hmem
        have hp := List.mem_takeWhile_imp hmem
        simp at hp
      · exact absurd h (by simp)
  · exact absurd h (by simp)

theorem chunkLinesGo_length (chapter : List Char) :
    ∀ (lines : List (List Char)) (key : List Char) (texts : List (List Char)),
      (∀ t ∈ texts, ∃ c ∈ t, isSpacePy c = false) →
      (chunkLinesGo chapter lines key texts).length =
        segEmitCount lines (!key.isEmpty) (!texts.isEmpty) := by
  intro lines
  induction lines with
  | nil =>
    intro key texts hinv
    unfold chunkLinesGo segEmitCount
    exact flushEntry_length chapter key texts hinv
  | cons line0 rest ih =>
    intro key texts hinv
    unfold chunkLinesGo segEmitCount
    dsimp only []
    by_cases hline : (pyStrip line0).isEmpty = true
    · rw [if_pos hline, if_pos hline]
      exact ih key texts hinv
    · rw [if_neg hline, if_neg hline]
      cases hkm : keyLineMatch (pyStrip line0) with
      | some kv =>
        obtain ⟨newKey, after⟩ := kv
        rw [List.length_append]
        rw [flushEntry_length chapter key texts hinv]
        have hinv2 : ∀ t ∈ (if (pyStrip after).isEmpty = true then
            ([] : List (List Char)) else [pyStrip after]),
            ∃ c ∈ t, isSpacePy c = false := by
          split
          · intro t ht; simp at ht
          · rename_i hne
            intro t ht
            rw [List.mem_singleton] at ht
            subst ht
            exact pyStrip_has_nonspace (by simpa [List.isEmpty_iff] using hne)
        rw [ih newKey _ hinv2]
        have hknew := (keyLineMatch_props _ _ _ hkm).2.2
        rw [hknew]
        have htexts : ((if (pyStrip after).isEmpty = true then
            ([] : List (List Char)) else [pyStrip after])).isEmpty =
            (pyStrip after).isEmpty := by
          split <;> simp_all
        rw [htexts]
        simp
      | none =>
        by_cases hkey : key.isEmpty = true
        · have hb : (!key.isEmpty) = false := by simp [hkey]
          simp [hb, ih key texts hinv]
        · have hb : (!key.isEmpty) = true := by simp [hkey]
          have hinv2 : ∀ t ∈ texts ++ [pyStrip line0],
              ∃ c ∈ t, isSpacePy c = false := by
            intro t ht
            rcases List.mem_append.mp ht with h1 | h1
            · exact hinv t h1
            · rw [List.mem_singleton] at h1
              subst h1
              exact pyStrip_has_nonspace (by simpa [List.isEmpty_iff] using hline)
          have happ : (texts ++ [pyStrip line0]).isEmpty = false := by
            cases texts <;> rfl
          simp [hb, ih key (texts ++ [pyStrip line0]) hinv2, happ]

theorem segEmitCount_le :
    ∀ (lines : List (List Char)) (hk ht : Bool),
      segEmitCount lines hk ht ≤
        ((lines.filter (fun l => (keyLineMatch (pyStrip l)).isSome)).length +
          (if hk then 1 else 0)) := by
  intro lines
  induction lines with
  | nil =>
    intro hk ht
    unfold segEmitCount
    cases hk <;> cases ht <;> simp
  | cons line0 rest ih =>
    intro hk ht
    unfold segEmitCount
    dsimp only []
    by_cases hline : (pyStrip line0).isEmpty = true
    · rw [if_pos hline]
      have hnone : keyLineMatch (pyStrip line0) = none := by
        rw [List.isEmpty_iff.mp hline]
        rfl
      rw [List.filter_cons_of_neg (by simp [hnone])]
      exact ih hk ht
    · rw [if_neg hline]
      cases hkm : keyLineMatch (pyStrip line0) with
      | some kv =>
        obtain ⟨newKey, after⟩ := kv
        rw [List.filter_cons_of_pos (by simp [hkm])]
        have h1 := ih true (!(pyStrip after).isEmpty)
        simp only [if_true, ite_true] at h1
        have h2 : (if hk && ht then 1 else 0) ≤ (if hk then 1 else 0) := by
          cases hk <;> cases ht <;> simp
        simp only [List.length_cons]
        omega
      | none =>
        rw [List.filter_cons_of_neg (by simp [hkm])]
        by_cases hkey : hk
        · subst hkey
          rw [if_pos rfl]
          exact ih true true
        · rw [if_neg hkey]
          exact ih hk ht

/-- Amended claim C5: for every chapter chunk, the number of emitted
Reference records equals the number of key lines whose entry accumulates at
least one non-blank text piece before being flushed (`chunkEmitCount`), a
number at most — and, as the counterexample shows, sometimes strictly below
— the number of key-line matches. -/
theorem c5_amended (chapter chunk : List Char) :
    (processChunk chapter chunk).length = chunkEmitCount chunk ∧
    chunkEmitCount chunk ≤ specKeyLineCount chunk := by
  constructor
  · unfold processChunk chunkEmitCount
    have h := chunkLinesGo_length chapter (splitChar '\n' (pyStrip chunk)) [] []
      (by intro t ht; simp at ht)
    simpa using h
  · unfold chunkEmitCount specKeyLineCount
    have h := segEmitCount_le (splitChar '\n' (pyStrip chunk)) false false
    simpa using h

/-! ## Claim C9: the citation_key field -/

theorem flushEntry_key (chapter key : List Char) (texts : List (List Char))
    (r : Reference) (hr : r ∈ flushEntry chapter key texts) :
    r.citation_key = key ∧ key ≠ [] := by
  unfold flushEntry at hr
  split at hr
  · rename_i hcond
    cases hps : parse_single_reference key (joinSpace texts) chapter with
    | none => rw [hps] at hr; simp at hr
    | some r0 =>
      rw [hps] at hr
      rw [List.mem_singleton] at hr
      subst hr
      refine ⟨(psr_fields hps).1, ?_⟩
      intro hk
      subst hk
      simp at hcond
  · simp at hr

theorem chunkLinesGo_key (chapter : List Char) :
    ∀ (lines : List (List Char)) (key : List Char) (texts : List (List Char)),
      (']' ∉ key) →
      ∀ r ∈ chunkLinesGo chapter lines key texts,
        r.citation_key ≠ [] ∧ ']' ∉ r.citation_key := by
  intro lines
  induction lines with
  | nil =>
    intro key texts hkey r hr
    unfold chunkLinesGo at hr
    obtain ⟨hck, hkne⟩ := flushEntry_key chapter key texts r hr
    exact ⟨hck ▸ hkne, hck ▸ hkey⟩
  | cons line0 rest ih =>
    intro key texts hkey r hr
    unfold chunkLinesGo at hr
    dsimp only [] at hr
    split at hr
    · exact ih key texts hkey r hr
    · split at hr
      · rename_i newKey after heq
        rcases List.mem_append.mp hr with h1 | h1
        · obtain ⟨hck, hkne⟩ := flushEntry_key chapter key texts r h1
          exact ⟨hck ▸ hkne, hck ▸ hkey⟩
        · obtain ⟨-, hnin, -⟩ := keyLineMatch_props _ _ _ heq
          exact ih newKey _ hnin r h1
      · split at hr
        · exact ih key _ hkey r hr
        · exact ih key texts hkey r hr

theorem parseRefsGo_key :
    ∀ (chunks : List (List Char)) (i : Nat) (chapter : List Char)
      (r : Reference), r ∈ parseRefsGo chunks i chapter →
      r.citation_key ≠ [] ∧ ']' ∉ r.citation_key := by
  intro chunks
  induction chunks with
  | nil => intro i chapter r hr; simp [parseRefsGo] at hr
  | cons chunk rest ih =>
    intro i chapter r hr
    unfold parseRefsGo at hr
    split at hr
    · exact ih _ _ r hr
    · split at hr
      · exact ih _ _ r hr
      · rcases List.mem_append.mp hr with h1 | h1
        · unfold processChunk at h1
          exact chunkLinesGo_key chapter _ [] [] (by simp) r h1
        · exact ih _ _ r h1

/-- Counterexample to claim C9: the main pipeline stores the key-line
regex's group 1, i.e. the marker text WITHOUT the surrounding brackets. -/
theorem c9_counterexample :
    (parse_references c9input).map (fun r => r.citation_key) =
      ["Hill '79".data] ∧
    ("Hill '79".data : List Char) ≠ "[Hill '79]".data :=
  ⟨by decide, by decide⟩

/-- Amended claim C9: every emitted Reference's `citation_key` holds the
non-empty bracket body without the surrounding brackets (it never contains
`]`); by contrast, `reference_parser.extract_citation_key` returns the
bracketed text including the brackets, e.g. `[Hill '79]`. -/
theorem c9_amended :
    (∀ (t : List Char) (r : Reference), r ∈ parse_references t →
       r.citation_key ≠ [] ∧ ']' ∉ r.citation_key) ∧
    extract_citation_key ("[Hill '79] Banu Musa brothers".data) =
      "[Hill '79]".data := by
  constructor
  · intro t r hr
    exact parseRefsGo_key (chapterSplit t) 0 ("Unknown".data) r hr
  · decide

/-- Witness for the amended C9 at the concrete document `c9input`. -/
theorem c9_amended_witness :
    c9ref ∈ parse_references c9input ∧
    c9ref.citation_key ≠ [] ∧ ']' ∉ c9ref.citation_key :=
  ⟨by decide, c9_amended.1 c9input c9ref (by decide)⟩

/-! ## Claim C10: shape of emitted author strings -/

theorem wsRunAt_none_head (a : Char) (rest : List Char)
    (h : wsRunAt (a :: rest) = none) : isSpacePy a = false := by
  unfold wsRunAt at h
  split at h
  · rename_i c2 tail heq
    injection heq with h1 h2
    subst h1
    split at h
    · simp at h
    · rename_i hns
      simpa using hns
  · rename_i heq
    exact absurd heq (by simp)

theorem collapseWs_spaceOnly_aux :
    ∀ (fuel : Nat) (l : List Char), l.length ≤ fuel →
      ∀ c ∈ subAllAux wsRunAt fuel l, isSpacePy c = true → c = ' ' := by
  intro fuel
  induction fuel with
  | zero =>
    intro l hl c hc hsp
    have hnil : l = [] := List.length_eq_zero.mp (Nat.le_zero.mp hl)
    subst hnil
    simp [subAllAux] at hc
  | succ n ih =>
    intro l hl c hc hsp
    cases l with
    | nil => simp [subAllAux] at hc
    | cons a rest =>
      unfold subAllAux at hc
      cases hm : wsRunAt (a :: rest) with
      | some pr =>
        rw [hm] at hc
        have hsa : isSpacePy a = true := by
          unfold wsRunAt at hm
          split at hm
          · rename_i c2 tail heq
            injection heq with hq1 hq2
            subst hq1
            split at hm
            · assumption
            · simp at hm
          · simp at hm
        have hpr : pr = ([' '], (a :: rest).dropWhile isSpacePy) := by
          unfold wsRunAt at hm
          split at hm
          · rename_i c2 tail heq
            injection heq with hq1 hq2
            subst hq1
            split at hm
            all_goals first
              | (injection hm with h1; exact h1.symm)
              | exact hm.symm
              | exact absurd hsa (by assumption)
              | simp at hm
          · simp at hm
        subst hpr
        dsimp only [] at hc
        rcases List.mem_append.mp hc with h1 | h1
        · rw [List.mem_singleton] at h1
          exact h1
        · have hlen : ((a :: rest).dropWhile isSpacePy).length ≤ n := by
            rw [List.dropWhile_cons, if_pos hsa]
            have h2 : (rest.dropWhile isSpacePy).length ≤ rest.length :=
              (List.dropWhile_suffix isSpacePy).sublist.length_le
            simp only [List.length_cons] at hl
            omega
          exact ih _ hlen c h1 hsp
      | none =>
        rw [hm] at hc
        rcases List.mem_cons.mp hc with rfl | h1
        · have := wsRunAt_none_head c rest hm
          rw [hsp] at this
          exact absurd this (by simp)
        · have hlen : rest.length ≤ n := by
            simp only [List.length_cons] at hl
            omega
          exact ih rest hlen c h1 hsp

theorem collapseWs_spaceOnly (l : List Char) :
    ∀ c ∈ collapseWs l, isSpacePy c = true → c = ' ' := by
  unfold collapseWs subAll
  exact collapseWs_spaceOnly_aux l.length l le_rfl

theorem pyStrip_subset {l : List Char} : ∀ c ∈ pyStrip l, c ∈ l := by
  intro c hc
  unfold pyStrip at hc
  rw [List.mem_reverse] at hc
  have h1 := (List.dropWhile_suffix isSpacePy).subset hc
  rw [List.mem_reverse] at h1
  exact (List.dropWhile_suffix isSpacePy).subset h1

theorem stripSet_subset {s l : List Char} : ∀ c ∈ stripSet s l, c ∈ l := by
  intro c hc
  unfold stripSet at hc
  rw [List.mem_reverse] at hc
  have h1 := (List.dropWhile_suffix (s.contains ·)).subset hc
  rw [List.mem_reverse] at h1
  exact (List.dropWhile_suffix (s.contains ·)).subset h1

theorem stripSet_head_notin {s l : List Char} {c : Char}
    (h : (stripSet s l).head? = some c) : s.contains c = false := by
  unfold stripSet at h
  rw [List.head?_reverse] at h
  have hsuf := List.dropWhile_suffix (l := (l.dropWhile (s.contains ·)).reverse)
    (s.contains ·)
  cases hm : List.dropWhile (s.contains ·) ((l.dropWhile (s.contains ·)).reverse) with
  | nil => rw [hm] at h; simp at h
  | cons d t =>
    rw [hm] at h
    rw [hm] at hsuf
    obtain ⟨w, hw⟩ := hsuf
    have h2 : ((l.dropWhile (s.contains ·)).reverse).getLast? = some c := by
      rw [← hw, List.getLast?_append_of_ne_nil w (by simp)]
      exact h
    rw [List.getLast?_reverse] at h2
    cases hd : List.dropWhile (s.contains ·) l with
    | nil => rw [hd] at h2; simp at h2
    | cons e t2 =>
      rw [hd] at h2
      simp only [List.head?_cons, Option.some.injEq] at h2
      exact h2 ▸ dropWhile_head_not _ _ _ _ hd

theorem stripSet_last_notin {s l : List Char} {c : Char}
    (h : (stripSet s l).getLast? = some c) : s.contains c = false := by
  unfold stripSet at h
  rw [List.getLast?_reverse] at h
  cases hm : List.dropWhile (s.contains ·) ((l.dropWhile (s.contains ·)).reverse) with
  | nil => rw [hm] at h; simp at h
  | cons d t =>
    rw [hm] at h
    simp only [List.head?_cons, Option.some.injEq] at h
    exact h ▸ dropWhile_head_not _ _ _ _ hm

theorem stripSet_noEdgePunct {l : List Char}
    (hso : ∀ c ∈ l, isSpacePy c = true → c = ' ') :
    noEdgePunct (stripSet ['.', ',', ';', ':', ' '] l) = true := by
  unfold noEdgePunct
  rw [Bool.and_eq_true]
  constructor
  · cases hh : (stripSet ['.', ',', ';', ':', ' '] l).head? with
    | none => rfl
    | some c =>
      have hcont := stripSet_head_notin hh
      have hmem : c ∈ l := stripSet_subset c (List.mem_of_mem_head? (by rw [hh]; simp))
      have hns : isSpacePy c = false := by
        cases hspc : isSpacePy c with
        | false => rfl
        | true =>
          have := hso c hmem hspc
          subst this
          simp at hcont
      simp only [hns, Bool.not_false, Bool.and_true]
      simpa using hcont
  · cases hh : (stripSet ['.', ',', ';', ':', ' '] l).getLast? with
    | none => rfl
    | some c =>
      have hcont := stripSet_last_notin hh
      have hmem : c ∈ l := stripSet_subset c (List.mem_of_mem_getLast? (by rw [hh]; simp))
      have hns : isSpacePy c = false := by
        cases hspc : isSpacePy c with
        | false => rfl
        | true =>
          have := hso c hmem hspc
          subst this
          simp at hcont
      simp only [hns, Bool.not_false, Bool.and_true]
      simpa using hcont

theorem lastInitialsMatch_subset {name last grp2 : List Char}
    (h : lastInitialsMatch name = some (last, grp2)) :
    (∀ c ∈ last, c ∈ name) ∧ (∀ c ∈ grp2, c ∈ name) := by
  unfold lastInitialsMatch at h
  split at h
  · rename_i c0 rest
    split at h
    · dsimp only [] at h
      split at h
      · rename_i rem hws
        split at h
        · injection h with h1
          injection h1 with hlast hgrp
          subst hlast
          subst hgrp
          constructor
          · intro c hc
            rcases List.mem_cons.mp hc with rfl | h2
            · exact List.mem_cons_self _ _
            · exact List.mem_cons_of_mem _ ((List.takeWhile_prefix _).subset h2)
          · intro c hc
            have hrem : rem = (rest.dropWhile isLowerPy).dropWhile isSpacePy := by
              unfold wsPlus at hws
              split at hws
              · simp at hws
              · injection hws with h2
                exact h2.symm
            subst hrem
            exact List.mem_cons_of_mem _
              ((List.dropWhile_suffix _).subset ((List.dropWhile_suffix _).subset hc))
        · simp at h
      · simp at h
    · simp at h
  · simp at h

theorem normalize_noEdgePunct (name0 : List Char) :
    noEdgePunct (normalize_author_name name0) = true := by
  unfold normalize_author_name
  split
  · rfl
  · apply stripSet_noEdgePunct
    intro c hc hsp
    dsimp only [] at hc
    have hname3 := collapseWs_spaceOnly (stripSet ['.', ',', ';', ':'] (pyStrip name0))
    split at hc
    · split at hc
      · split at hc
        · rcases List.mem_append.mp hc with h1 | h1
          · have hm1 := pyStrip_subset c h1
            have hm2 := List.drop_subset _ _ hm1
            have hm3 := (List.dropWhile_suffix (· ≠ ',')).subset hm2
            exact hname3 c hm3 hsp
          · rcases List.mem_cons.mp h1 with rfl | h2
            · rfl
            · have hm1 := pyStrip_subset c h2
              have hm2 := (List.takeWhile_prefix (· ≠ ',')).subset hm1
              exact hname3 c hm2 hsp
        · have hm1 := pyStrip_subset c hc
          have hm2 := (List.takeWhile_prefix (· ≠ ',')).subset hm1
          exact hname3 c hm2 hsp
      · have hm1 := pyStrip_subset c hc
        have hm2 := (List.takeWhile_prefix (· ≠ ',')).subset hm1
        exact hname3 c hm2 hsp
    · split at hc
      all_goals
        first
          | exact hname3 c hc hsp
          | (rename_i heq
             rcases List.mem_append.mp hc with h1 | h1
             · exact hname3 c
                 ((lastInitialsMatch_subset heq).2 c (pyStrip_subset c h1)) hsp
             · rcases List.mem_cons.mp h1 with rfl | h2
               · rfl
               · exact hname3 c ((lastInitialsMatch_subset heq).1 c h2) hsp)

theorem mem_parse_author_list {s a : List Char} (ha : a ∈ parse_author_list s) :
    ∃ b, a = normalize_author_name b ∧ 1 < a.length ∧
      (a.all digitPunctClass) = false := by
  unfold parse_author_list at ha
  split at ha
  · simp at ha
  · rw [List.mem_filterMap] at ha
    obtain ⟨b, hb, hf⟩ := ha
    dsimp only [] at hf
    split at hf
    · rename_i hcond
      injection hf with h1
      subst h1
      rw [Bool.and_eq_true, Bool.and_eq_true] at hcond
      obtain ⟨⟨-, hlen⟩, hclass⟩ := hcond
      refine ⟨b, rfl, by simpa using hlen, by simpa using hclass⟩
    · simp at hf

/-- Amended claim C10: every element produced by `_parse_author_list` (the
standard and "Edited by" paths) has length at least 2, is not composed
solely of digits/whitespace/periods/commas, and carries no leading or
trailing `'.,;: '` character nor edge whitespace; the "Translated by" path
bypasses the length/digit filter and guarantees only the final stripping
(second conjunct). -/
theorem c10_amended :
    (∀ (s a : List Char), a ∈ parse_author_list s →
       2 ≤ a.length ∧ (a.all digitPunctClass) = false ∧
       noEdgePunct a = true) ∧
    (∀ name, noEdgePunct (normalize_author_name name) = true) := by
  constructor
  · intro s a ha
    obtain ⟨b, rfl, hlen, hclass⟩ := mem_parse_author_list ha
    exact ⟨hlen, hclass, normalize_noEdgePunct b⟩
  · exact normalize_noEdgePunct

/-- Witness for the amended C10 at a concrete author list. -/
theorem c10_amended_witness :
    ("N Wiener".data) ∈ parse_author_list ("Wiener, N.".data) ∧
    (2 ≤ ("N Wiener".data).length ∧
     (("N Wiener".data).all digitPunctClass) = false ∧
     noEdgePunct ("N Wiener".data) = true) :=
  ⟨by decide,
   c10_amended.1 ("Wiener, N.".data) ("N Wiener".data) (by decide)⟩

/-! ## Claim C7: translation entries -/

/-- Claim C7: for an entry whose text matches the translation pattern
`[Tt]ranslated\s+by\s+([^(]+)\s*\((\d{4})\)` — with the claim's implicit
guards holding: the first period precedes the (lower-cased) literal
`translated by` and the slice between them is non-empty after stripping —
the authors list is exactly the one normalized translator name, which is
also first and last author, and the title is the (cleaned) substring
between the first period and `translated by`, excluding the translation
clause. -/
theorem c7_translation (key text chapter g : List Char) (r : Reference)
    (hts : transSearch text = some g)
    (hfp : 0 < pyFind text ['.'])
    (htp : pyFind text ['.'] <
      pyFind (text.map toLowerPy) ("translated by".data))
    (htitle : rstripSet ['.']
      (pyStrip ((text.drop ((pyFind text ['.']).toNat + 1)).take
        ((pyFind (text.map toLowerPy) ("translated by".data)).toNat -
          ((pyFind text ['.']).toNat + 1)))) ≠ [])
    (h : parse_single_reference key text chapter = some r) :
    r.authors = [normalize_author_name (pyStrip g)] ∧
    r.first_author = normalize_author_name (pyStrip g) ∧
    r.last_author = normalize_author_name (pyStrip g) ∧
    r.title = clean_title (rstripSet ['.']
      (pyStrip ((text.drop ((pyFind text ['.']).toNat + 1)).take
        ((pyFind (text.map toLowerPy) ("translated by".data)).toNat -
          ((pyFind text ['.']).toNat + 1))))) := by
  obtain ⟨-, -, -, hA, hF, hL, hT, -, -⟩ := psr_fields h
  have hAs : extract_authors_smart text key =
      [normalize_author_name (pyStrip g)] := by
    unfold extract_authors_smart
    rw [hts]
  have hsome : (findMatch transAt text).isSome = true := by
    unfold transSearch at hts
    cases hfm : findMatch transAt text with
    | none => rw [hfm] at hts; simp at hts
    | some p => simp
  refine ⟨by rw [hA, hAs], by rw [hF, hAs]; rfl, by rw [hL, hAs]; simp, ?_⟩
  rw [hT]
  unfold extract_title
  rw [if_pos hsome]
  dsimp only []
  rw [if_pos (by simp [hfp, htp])]
  rw [if_pos (by simpa using htitle)]

/-- Witness for C7 at the spec's translation example. -/
theorem c7_translation_witness :
    parse_single_reference ("Hill '79".data) c7text ("Unknown".data) =
      some c7ref ∧
    c7ref.authors = ["D. R. Hill".data] ∧
    c7ref.first_author = "D. R. Hill".data ∧
    c7ref.last_author = "D. R. Hill".data ∧
    c7ref.title = "The book of ingenious devices (Kitab al-hiyal)".data := by
  have hgen := c7_translation ("Hill '79".data) c7text ("Unknown".data)
    ("D. R. Hill ".data) c7ref (by decide) (by decide) (by decide) (by decide)
    (by decide)
  exact ⟨by decide, hgen.1.trans (by decide), hgen.2.1.trans (by decide),
    hgen.2.2.1.trans (by decide), hgen.2.2.2.trans (by decide)⟩
